import Mathlib

/-!
# Word Matrix — verification of the room/round orchestration engine

Shallow embedding of the Word Matrix word-game backend:
* `backend/scoring.js` (shared-letters variant, namespace `VariantA`),
* the subword-extraction scoring module (namespace `VariantB`),
* `backend/server.js` (namespace `Server`): the socket command handlers,
  the per-round duplicate-word bookkeeping of `endRound`, and the
  timer-driven round state machine.

Words are modelled as `List Char`; JS numbers that carry scores or times
are modelled as exact rationals (`ℚ`), with JS `Math.round`/`Math.max`
spelled out explicitly.  The Redis hashes are modelled as insertion-ordered
association lists (`List (String × _)`), matching JS object key enumeration
order, and the per-room record is a `RoomState` structure.
-/

set_option maxHeartbeats 1600000

namespace WordMatrix

/-- JS `String.prototype.trim`: drop whitespace from both ends. -/
def trimList (l : List Char) : List Char :=
  ((l.dropWhile Char.isWhitespace).reverse.dropWhile Char.isWhitespace).reverse

/-- JS `word.toLowerCase().trim()`, the normalization applied to every
submitted word before validation, storage and duplicate grouping. -/
def normalize (w : List Char) : List Char :=
  trimList (w.map Char.toLower)

/-- One character of the regex class `[a-z]`. -/
def isLowerAlphaChar (c : Char) : Bool :=
  'a' ≤ c && c ≤ 'z'

/-- JS regex test `/^[a-z]+$/.test(s)`: non-empty and all lowercase alphabetic. -/
def matchesLowerAlpha (l : List Char) : Bool :=
  !l.isEmpty && l.all isLowerAlphaChar

/-- `validateWord(word, dictionary)` from `backend/scoring.js` (identical in
both variants): normalize, require length ≥ 3, `/^[a-z]+$/`, and dictionary
membership.  The dictionary `Set` is modelled as a list of words. -/
def validateWord (word : List Char) (dict : List (List Char)) : Bool :=
  let normalized := normalize word
  if normalized.length < 3 then false
  else if !matchesLowerAlpha normalized then false
  else dict.contains normalized

/-- JS `Math.round x = ⌊x + 0.5⌋`, so `Math.round(q * 100) / 100`. -/
def roundTo2 (q : ℚ) : ℚ :=
  ((⌊q * 100 + 1/2⌋ : ℤ) : ℚ) / 100

namespace VariantA

/-- `containsAllLetters(word, letters)` from the shared-letters
`backend/scoring.js`: every required letter (lower-cased) must occur in the
lower-cased word.  The JS per-letter `includes` test on a single-character
letter is exactly list membership. -/
def containsAllLetters (word : List Char) (letters : List Char) : Bool :=
  let wordLower := word.map Char.toLower
  let lettersLower := letters.map Char.toLower
  lettersLower.all (fun l => wordLower.contains l)

/-- The score-breakdown object returned by variant A `calculateScore`. -/
structure Breakdown where
  isValid : Bool
  validWord : ℚ
  containsAll : ℚ
  lengthBonus : ℚ
  speedBonus : ℚ
  originalityBonus : ℚ
  timeMultiplier : ℚ
  basePoints : ℚ
  roundPoints : ℚ
  deriving Repr, DecidableEq

/-- The parameter object of variant A `calculateScore`. -/
structure ScoreParams where
  word : List Char
  letters : List Char
  dictionary : List (List Char)
  timeElapsed : ℚ
  totalTime : ℚ
  isDuplicate : Bool
  isFirstDuplicate : Bool
  deriving Repr, DecidableEq

/-- The initial breakdown object (all components zero, multiplier 1). -/
def emptyBreakdown : Breakdown :=
  { isValid := false, validWord := 0, containsAll := 0, lengthBonus := 0,
    speedBonus := 0, originalityBonus := 0, timeMultiplier := 1,
    basePoints := 0, roundPoints := 0 }

/-- Variant A `calculateScore`: +5 validity, +3 letters-present (both
mandatory, early return with zero `roundPoints` otherwise), +1 per character
beyond length 5, +2 speed bonus in the first half of the round, +5
originality bonus for the first submitter of a duplicated word, then a
multiplicative time bonus of up to 10%, rounded to 2 decimals. -/
def calculateScore (p : ScoreParams) : Breakdown :=
  let normalizedWord := normalize p.word
  if !validateWord normalizedWord p.dictionary then emptyBreakdown
  else if !containsAllLetters normalizedWord p.letters then
    { emptyBreakdown with validWord := 5 }
  else
    let lengthBonus : ℚ := max 0 ((normalizedWord.length : ℚ) - 5)
    let speedBonus : ℚ := if p.timeElapsed ≤ p.totalTime / 2 then 2 else 0
    let originalityBonus : ℚ := if p.isFirstDuplicate then 5 else 0
    let basePoints : ℚ := 5 + 3 + lengthBonus + speedBonus + originalityBonus
    let remainingTime : ℚ := max 0 (p.totalTime - p.timeElapsed)
    let timeMultiplier : ℚ := 1 + remainingTime / p.totalTime * (1/10)
    { isValid := true, validWord := 5, containsAll := 3,
      lengthBonus := lengthBonus, speedBonus := speedBonus,
      originalityBonus := originalityBonus, timeMultiplier := timeMultiplier,
      basePoints := basePoints,
      roundPoints := roundTo2 (basePoints * timeMultiplier) }

end VariantA

namespace VariantB

/-- The letter-consumption loop of `canFormWord`: take each letter of the
subword in order, look it up in the remaining letters of the main word
(`indexOf`), fail if absent, otherwise remove that first occurrence
(`splice`).  `List.erase` removes exactly the first occurrence. -/
def canFormWordAux : List Char → List Char → Bool
  | [], _ => true
  | c :: rest, avail =>
    if avail.contains c then canFormWordAux rest (avail.erase c)
    else false

/-- `canFormWord(subword, mainWord)` from the subword-extraction
`backend/scoring.js`: the subword must be formable from the main word's
letters, consuming each occurrence at most once. -/
def canFormWord (subword mainWord : List Char) : Bool :=
  canFormWordAux (subword.map Char.toLower) (mainWord.map Char.toLower)

/-- The score-breakdown object returned by variant B `calculateScore`. -/
structure Breakdown where
  isValid : Bool
  validWord : ℚ
  canBeFormed : ℚ
  lengthBonus : ℚ
  speedBonus : ℚ
  uniquenessBonus : ℚ
  firstToFindBonus : ℚ
  basePoints : ℚ
  roundPoints : ℚ
  reason : String
  deriving Repr, DecidableEq

/-- The parameter object of variant B `calculateScore`
(`allSubmittedWords` is accepted but never read by the source function). -/
structure ScoreParams where
  word : List Char
  mainWord : List Char
  dictionary : List (List Char)
  timeElapsed : ℚ
  totalTime : ℚ
  isDuplicate : Bool
  isFirstDuplicate : Bool
  allSubmittedWords : List (List Char)
  deriving Repr, DecidableEq

/-- The initial breakdown object of variant B. -/
def emptyBreakdown : Breakdown :=
  { isValid := false, validWord := 0, canBeFormed := 0, lengthBonus := 0,
    speedBonus := 0, uniquenessBonus := 0, firstToFindBonus := 0,
    basePoints := 0, roundPoints := 0, reason := "" }

/-- The fixed length-bonus table of variant B:
`{4:2, 5:5, 6:9, 7:14, 8+: 20 + 3×(len−8)}`, 0 below length 4. -/
def lengthBonusTable (length : ℕ) : ℚ :=
  if length = 4 then 2
  else if length = 5 then 5
  else if length = 6 then 9
  else if length = 7 then 14
  else if length ≥ 8 then 20 + ((length : ℚ) - 8) * 3
  else 0

/-- Variant B `calculateScore`: +5 validity, +5 formability (both mandatory,
early return otherwise), table length bonus, +3 speed bonus in the first
quarter of the round, +10 uniqueness bonus when nobody else submitted the
word, +5 first-to-find bonus for the earliest submitter of a duplicated
word; no time multiplier. -/
def calculateScore (p : ScoreParams) : Breakdown :=
  let normalizedWord := normalize p.word
  if normalizedWord.length < 3 then
    { emptyBreakdown with reason := "Word must be at least 3 letters" }
  else if !validateWord normalizedWord p.dictionary then
    { emptyBreakdown with reason := "Word not in dictionary" }
  else if !canFormWord normalizedWord p.mainWord then
    { emptyBreakdown with
      validWord := 5
      reason := "Cannot be formed from main word" }
  else
    let lengthBonus : ℚ := lengthBonusTable normalizedWord.length
    let speedBonus : ℚ := if p.timeElapsed ≤ p.totalTime * (1/4) then 3 else 0
    let uniquenessBonus : ℚ := if !p.isDuplicate then 10 else 0
    let firstToFindBonus : ℚ := if p.isFirstDuplicate then 5 else 0
    let basePoints : ℚ :=
      5 + 5 + lengthBonus + speedBonus + uniquenessBonus + firstToFindBonus
    { isValid := true, validWord := 5, canBeFormed := 5,
      lengthBonus := lengthBonus, speedBonus := speedBonus,
      uniquenessBonus := uniquenessBonus, firstToFindBonus := firstToFindBonus,
      basePoints := basePoints, roundPoints := basePoints, reason := "" }

end VariantB

namespace Server

/-- One entry of the per-round submissions hash
`room:{id}:round:{n}:submissions` — the JSON value stored under a socket id
by the `submitWord` handler: the (already normalized) word, the
server-observed submission timestamp (ms), and the display name. -/
structure SubData where
  word : List Char
  submissionTime : ℤ
  username : List Char
  deriving Repr, DecidableEq

/-- The two bookkeeping maps built by the first loop of `endRound`:
`wordCounts` (how many submissions normalize to a word; 0 = absent, matching
the JS `!wordCounts[w]` test on `undefined`) and `wordFirstSubmitters`
(socket id and timestamp of the earliest submitter seen so far). -/
structure WordStats where
  counts : List Char → ℕ
  firstSub : List Char → Option (String × ℤ)

/-- One iteration of the duplicate-counting loop of `endRound`: on the first
occurrence of a normalized word record the submitter; afterwards replace the
recorded first submitter only on a strictly earlier timestamp; always
increment the count. -/
def dedupStep (st : WordStats) (e : String × SubData) : WordStats :=
  let nw := normalize e.2.word
  let st1 :=
    if st.counts nw = 0 then
      { st with firstSub := fun w =>
          if w = nw then some (e.1, e.2.submissionTime) else st.firstSub w }
    else
      match st.firstSub nw with
      | some (sid, t) =>
        if e.2.submissionTime < t then
          { st with firstSub := fun w =>
              if w = nw then some (e.1, e.2.submissionTime) else st.firstSub w }
        else
          { st with firstSub := fun w =>
              if w = nw then some (sid, t) else st.firstSub w }
      | none => st
  { st1 with counts := fun w =>
      if w = nw then st.counts nw + 1 else st.counts w }

/-- The initial (empty) bookkeeping state. -/
def emptyStats : WordStats :=
  { counts := fun _ => 0, firstSub := fun _ => none }

/-- The whole duplicate-counting loop of `endRound`, over the submission
entries in hash-enumeration (= insertion) order. -/
def computeStats (subs : List (String × SubData)) : WordStats :=
  subs.foldl dedupStep emptyStats

/-- `endRound`'s per-entry duplicate flag:
`wordCounts[data.word] > 1` (note: looked up under the stored word, which
the `submitWord` handler stored already normalized). -/
def isDuplicate (st : WordStats) (e : String × SubData) : Bool :=
  st.counts e.2.word > 1

/-- `endRound`'s per-entry first-of-duplicates flag:
`isDuplicate && wordFirstSubmitters[data.word].socketId === socketId`. -/
def isFirstDuplicate (st : WordStats) (e : String × SubData) : Bool :=
  isDuplicate st e &&
    match st.firstSub e.2.word with
    | some (sid, _) => sid == e.1
    | none => false

/-- The submissions of a round that normalize to the word `w`
(a "duplicate group" when it has at least two members). -/
def wordGroup (subs : List (String × SubData)) (w : List Char) :
    List (String × SubData) :=
  subs.filter (fun e => normalize e.2.word == w)

/-- One entry of the per-room players hash `room:{id}:players` — the JSON
value stored under a socket id. -/
structure PlayerRec where
  username : List Char
  totalPoints : ℚ
  lastWord : List Char
  lastRoundPoints : ℚ
  joinedAt : ℤ
  deriving Repr, DecidableEq

/-- The per-room record kept in Redis: the flat `room:{id}` hash
(host code, settings, current round, per-round start time and letters)
together with the per-round submissions hashes and the players hash,
modelled as insertion-ordered association lists. -/
structure RoomState where
  hostCode : String
  rounds : ℕ
  roundDuration : ℕ
  currentRound : ℕ
  gameStarted : Option ℤ
  roundStart : ℕ → Option ℤ
  roundLetters : ℕ → Option (List Char)
  submissions : ℕ → List (String × SubData)
  players : List (String × PlayerRec)

/-- The key-value store: room id → room record.  Rooms are created by the
REST surface and never deleted (store expiry is out of scope). -/
def Store := String → Option RoomState

/-- The per-connection closure state of `io.on('connection')`:
`currentRoom` and `username` (JS empty string = falsy, modelled as `[]`). -/
structure Session where
  currentRoom : Option String
  username : List Char
  deriving Repr, DecidableEq

/-- A fresh connection: no room, empty username. -/
def freshSession : Session := { currentRoom := none, username := [] }

/-- The error codes emitted by the socket handlers. -/
inductive ErrCode where
  | INVALID_USERNAME
  | ROOM_NOT_FOUND
  | UNAUTHORIZED
  | ALREADY_SUBMITTED
  deriving Repr, DecidableEq

/-- One per-submission row of the `roundResults` payload built by
`endRound`. -/
structure ResultEntry where
  socketId : String
  username : List Char
  submittedWord : List Char
  roundPoints : ℚ
  isValid : Bool
  isDuplicate : Bool
  isFirstDuplicate : Bool
  deriving Repr, DecidableEq

/-- The observable events emitted to sockets.  Presentation-only payload
pieces that no claim mentions (share of the member list, `bestWord`, the
top-10 leaderboard) are omitted from the payloads. -/
inductive Ev where
  | error (c : ErrCode)
  | roomJoined
  | settingsUpdated (rounds roundDuration : ℕ)
  | newRound (roundNumber : ℕ)
  | submissionReceived (word : List Char)
  | playerLeft
  | scoringInProgress
  | roundResults (results : List ResultEntry)
  | gameOver
  deriving Repr, DecidableEq

/-- Replace-or-append update of an insertion-ordered hash (`hset`). -/
def upsert {α : Type} (l : List (String × α)) (k : String) (v : α) :
    List (String × α) :=
  if l.any (fun e => e.1 == k) then
    l.map (fun e => if e.1 == k then (k, v) else e)
  else l ++ [(k, v)]

/-- Hash field lookup (`hget`): the value under the first matching key. -/
def lookup {α : Type} : List (String × α) → String → Option α
  | [], _ => none
  | e :: rest, k => if e.1 == k then some e.2 else lookup rest k

/-- `sanitizeUsername`: trim, cut to 50 characters, strip `<` and `>`. -/
def sanitizeUsername (u : List Char) : List Char :=
  ((trimList u).take 50).filter (fun c => !(c == '<' || c == '>'))

/-- `parseInt(x) || d` on a stored numeric field: a stored 0 is falsy in JS
and falls back to the default. -/
def orDefault (n d : ℕ) : ℕ := if n = 0 then d else n

/-- Update a store at one room key. -/
def setRoom (store : Store) (rid : String) (r : RoomState) : Store :=
  fun s => if s = rid then some r else store s

/-- The `joinRoom` handler: sanitize the name (assigning the session
username before any check, as the source does), reject an empty name and an
unknown room, otherwise join and (re)write the player's hash entry with
zeroed points. -/
def handleJoinRoom (store : Store) (sess : Session) (sock : String)
    (roomId : String) (rawUsername : List Char) (now : ℤ) :
    Store × Session × List Ev :=
  let username := sanitizeUsername rawUsername
  let sess1 := { sess with username := username }
  if username.isEmpty then
    (store, sess1, [Ev.error ErrCode.INVALID_USERNAME])
  else
    match store roomId with
    | none => (store, sess1, [Ev.error ErrCode.ROOM_NOT_FOUND])
    | some r =>
      let sess2 := { sess1 with currentRoom := some roomId }
      let rec1 : PlayerRec :=
        { username := username, totalPoints := 0, lastWord := [],
          lastRoundPoints := 0, joinedAt := now }
      let r' := { r with players := upsert r.players sock rec1 }
      (setRoom store roomId r', sess2, [Ev.roomJoined])

/-- The `hostSettings` handler: no-op without a joined room, unauthorized on
host-code mismatch (a missing room record reads a null host code, which can
never equal the presented string), otherwise overwrite `rounds` and
`roundDuration` — with no check of the room's current state. -/
def handleHostSettings (store : Store) (sess : Session)
    (rounds roundDuration : ℕ) (hostCode : String) :
    Store × List Ev :=
  match sess.currentRoom with
  | none => (store, [])
  | some rid =>
    match store rid with
    | none => (store, [Ev.error ErrCode.UNAUTHORIZED])
    | some r =>
      if r.hostCode ≠ hostCode then
        (store, [Ev.error ErrCode.UNAUTHORIZED])
      else
        let r' := { r with rounds := rounds, roundDuration := roundDuration }
        (setRoom store rid r', [Ev.settingsUpdated rounds roundDuration])

/-- The deferred work scheduled with `setTimeout`: the end-of-round pass
(capturing the letters, duration and total-round count read when the round
started) and the start of the next round. -/
inductive Timer where
  | endR (rid : String) (roundNumber : ℕ) (letters : List Char)
      (roundDuration : ℕ) (totalRounds : ℕ)
  | startR (rid : String) (roundNumber : ℕ)
  deriving Repr, DecidableEq

/-- `startRound`: read the settings back (with the `parseInt(..) || d`
defaults), record the start time and letters, clear the round's submission
hash, broadcast `newRound`, and schedule `endRound` after the duration plus
the 2-second grace window.  A missing room record is unreachable from the
handlers and modelled as abandoning the transition. -/
def startRound (store : Store) (rid : String) (roundNumber : ℕ)
    (now : ℤ) (letters : List Char) : Store × List Timer × List Ev :=
  match store rid with
  | none => (store, [], [])
  | some r =>
    let roundDuration := orDefault r.roundDuration 15
    let totalRounds := orDefault r.rounds 10
    let r' := { r with
      roundStart := fun n => if n = roundNumber then some now else r.roundStart n
      roundLetters := fun n =>
        if n = roundNumber then some letters else r.roundLetters n
      submissions := fun n => if n = roundNumber then [] else r.submissions n }
    (setRoom store rid r',
     [Timer.endR rid roundNumber letters roundDuration totalRounds],
     [Ev.newRound roundNumber])

/-- The `startGame` handler: no-op without a joined room, unauthorized on
host-code mismatch, otherwise set the current round to 1, record the game
start time, and run `startRound` for round 1 — with no check that the room
is still in the lobby. -/
def handleStartGame (store : Store) (sess : Session) (hostCode : String)
    (now : ℤ) (letters : List Char) : Store × List Timer × List Ev :=
  match sess.currentRoom with
  | none => (store, [], [])
  | some rid =>
    match store rid with
    | none => (store, [], [Ev.error ErrCode.UNAUTHORIZED])
    | some r =>
      if r.hostCode ≠ hostCode then
        (store, [], [Ev.error ErrCode.UNAUTHORIZED])
      else
        let r1 := { r with currentRound := 1, gameStarted := some now }
        startRound (setRoom store rid r1) rid 1 now letters

/-- The `submitWord` handler: no-op without a joined room or username, no-op
when the current round has no recorded start time, `ALREADY_SUBMITTED` when
the socket already has a submission for the current round, otherwise record
the normalized word with the server-observed timestamp. -/
def handleSubmitWord (store : Store) (sess : Session) (sock : String)
    (word : List Char) (now : ℤ) : Store × List Ev :=
  match sess.currentRoom with
  | none => (store, [])
  | some rid =>
    if sess.username.isEmpty then (store, [])
    else
      match store rid with
      | none => (store, [])
      | some r =>
        let n := r.currentRound
        match r.roundStart n with
        | none => (store, [])
        | some _ =>
          if (r.submissions n).any (fun e => e.1 == sock) then
            (store, [Ev.error ErrCode.ALREADY_SUBMITTED])
          else
            let sub : SubData :=
              { word := normalize word, submissionTime := now,
                username := sess.username }
            let r' := { r with submissions := fun m =>
              if m = n then r.submissions n ++ [(sock, sub)]
              else r.submissions m }
            (setRoom store rid r', [Ev.submissionReceived word])

/-- The `disconnect` handler: delete the socket's entry from the players
hash (`hdel`) and broadcast the shrunken member list. -/
def handleDisconnect (store : Store) (sess : Session) (sock : String) :
    Store × List Ev :=
  match sess.currentRoom with
  | none => (store, [])
  | some rid =>
    match store rid with
    | none => (store, [])
    | some r =>
      let r' := { r with players := r.players.filter (fun e => !(e.1 == sock)) }
      (setRoom store rid r', [Ev.playerLeft])

/-- The record `endRound` falls back to when a submitter is no longer in the
players hash: `{"username":"Unknown","totalPoints":0}`. -/
def unknownPlayer : PlayerRec :=
  { username := "Unknown".toList, totalPoints := 0, lastWord := [],
    lastRoundPoints := 0, joinedAt := 0 }

/-- The body of `endRound`'s scoring loop for one submission entry: look the
player up in the pre-loop snapshot of the players hash (falling back to
`unknownPlayer`), compute the duplicate flags, the elapsed seconds, and the
variant-A score, and produce both the updated player record and the result
row. -/
def scoreOne (dict : List (List Char)) (letters : List Char)
    (startTime : ℤ) (roundDuration : ℕ) (st : WordStats)
    (playersSnap : List (String × PlayerRec)) (e : String × SubData) :
    PlayerRec × ResultEntry :=
  let player := (lookup playersSnap e.1).getD unknownPlayer
  let dup := isDuplicate st e
  let firstDup := isFirstDuplicate st e
  let timeElapsed : ℚ := ((e.2.submissionTime - startTime : ℤ) : ℚ) / 1000
  let score := VariantA.calculateScore
    { word := e.2.word, letters := letters, dictionary := dict,
      timeElapsed := timeElapsed, totalTime := (roundDuration : ℚ),
      isDuplicate := dup, isFirstDuplicate := firstDup }
  let player' := { player with
    totalPoints := player.totalPoints + score.roundPoints
    lastWord := e.2.word
    lastRoundPoints := score.roundPoints }
  (player',
   { socketId := e.1, username := player.username, submittedWord := e.2.word,
     roundPoints := score.roundPoints, isValid := score.isValid,
     isDuplicate := dup, isFirstDuplicate := firstDup })

/-- `endRound`'s scoring pass: build the duplicate statistics over the full
submission snapshot, then score every submission, writing each updated
player record back to the players hash (reads use the pre-loop snapshot,
exactly as the source loop reads the one `hgetall` result). -/
def scoreRound (dict : List (List Char)) (letters : List Char)
    (startTime : ℤ) (roundDuration : ℕ)
    (players : List (String × PlayerRec))
    (subs : List (String × SubData)) :
    List (String × PlayerRec) × List ResultEntry :=
  let st := computeStats subs
  let updated := subs.foldl
    (fun ps e =>
      upsert ps e.1 (scoreOne dict letters startTime roundDuration st players e).1)
    players
  (updated, subs.map (fun e =>
    (scoreOne dict letters startTime roundDuration st players e).2))

/-- `endRound`: broadcast `scoringInProgress`, score the round's submission
snapshot, then either advance `currentRound` and schedule the next round
after the 3-second pacing delay, or broadcast `gameOver`.  (The top-10
leaderboard, `bestWord` and the archive insert are presentation/archival
outputs no claim mentions and are omitted; a missing room record is
unreachable and abandons the pass.) -/
def endRound (dict : List (List Char)) (store : Store) (rid : String)
    (roundNumber : ℕ) (letters : List Char) (roundDuration : ℕ)
    (totalRounds : ℕ) : Store × List Timer × List Ev :=
  match store rid with
  | none => (store, [], [])
  | some r =>
    let subs := r.submissions roundNumber
    let startTime := (r.roundStart roundNumber).getD 0
    let res := scoreRound dict letters startTime roundDuration r.players subs
    let players' := res.1
    let results := res.2
    let r1 := { r with players := players' }
    if roundNumber < totalRounds then
      let r2 := { r1 with currentRound := roundNumber + 1 }
      (setRoom store rid r2, [Timer.startR rid (roundNumber + 1)],
       [Ev.scoringInProgress, Ev.roundResults results])
    else
      (setRoom store rid r1, [],
       [Ev.scoringInProgress, Ev.roundResults results, Ev.gameOver])

/-- The global server configuration: the store, one session per socket id,
and the pending `setTimeout` callbacks. -/
structure Config where
  store : Store
  sessions : String → Session
  timers : List Timer

/-- Update one socket's session. -/
def setSession (c : Config) (sock : String) (s : Session) : Config :=
  { c with sessions := fun x => if x = sock then s else c.sessions x }

/-- The externally observable operations driving a room: the four socket
commands, a disconnect, and the firing of a pending timer.  Timestamps,
generated letters and the firing order of timers are adversarial inputs. -/
inductive Op where
  | joinRoom (sock roomId : String) (rawUsername : List Char) (now : ℤ)
  | hostSettings (sock : String) (rounds roundDuration : ℕ) (hostCode : String)
  | startGame (sock : String) (hostCode : String) (now : ℤ) (letters : List Char)
  | submitWord (sock : String) (word : List Char) (now : ℤ)
  | disconnect (sock : String)
  | fireTimer (t : Timer) (now : ℤ) (letters : List Char)
  deriving Repr, DecidableEq

/-- One step of the server: dispatch an operation against the current
configuration.  A `fireTimer` for a timer that is not pending is a no-op
(cancelled/stale callbacks never run); firing consumes the timer. -/
def step (dict : List (List Char)) (c : Config) (op : Op) :
    Config × List Ev :=
  match op with
  | Op.joinRoom sock roomId rawUsername now =>
    let res :=
      handleJoinRoom c.store (c.sessions sock) sock roomId rawUsername now
    (setSession { c with store := res.1 } sock res.2.1, res.2.2)
  | Op.hostSettings sock rounds roundDuration hostCode =>
    let res :=
      handleHostSettings c.store (c.sessions sock) rounds roundDuration hostCode
    ({ c with store := res.1 }, res.2)
  | Op.startGame sock hostCode now letters =>
    let res := handleStartGame c.store (c.sessions sock) hostCode now letters
    ({ c with store := res.1, timers := c.timers ++ res.2.1 }, res.2.2)
  | Op.submitWord sock word now =>
    let res := handleSubmitWord c.store (c.sessions sock) sock word now
    ({ c with store := res.1 }, res.2)
  | Op.disconnect sock =>
    let res := handleDisconnect c.store (c.sessions sock) sock
    ({ c with store := res.1 }, res.2)
  | Op.fireTimer t now letters =>
    if c.timers.contains t then
      let c1 := { c with timers := c.timers.erase t }
      match t with
      | Timer.endR rid n ls dur tot =>
        let res := endRound dict c1.store rid n ls dur tot
        ({ c1 with store := res.1, timers := c1.timers ++ res.2.1 }, res.2.2)
      | Timer.startR rid n =>
        let res := startRound c1.store rid n now letters
        ({ c1 with store := res.1, timers := c1.timers ++ res.2.1 }, res.2.2)
    else (c, [])

/-- Run a sequence of operations, discarding events. -/
def runOps (dict : List (List Char)) (c : Config) : List Op → Config
  | [] => c
  | op :: rest => runOps dict (step dict c op).1 rest

/-- The room a timer belongs to. -/
def timerRid : Timer → String
  | Timer.endR rid _ _ _ _ => rid
  | Timer.startR rid _ => rid

/-- The pending timers of one room. -/
def timersFor (rid : String) (ts : List Timer) : List Timer :=
  ts.filter (fun t => timerRid t == rid)

/-- Health of one pending timer of a room whose current round is `cur` and
whose configured round count is `rounds`: the timer belongs to the round in
flight, and an `endR` timer carries the round count it captured at round
start. -/
def TimerOK (cur rounds : ℕ) : Timer → Prop
  | Timer.endR _ n _ _ tot => n = cur ∧ n ≠ 0 ∧ tot = rounds
  | Timer.startR _ n => n = cur ∧ n ≠ 0 ∧ n ≤ rounds

instance (cur rounds : ℕ) (t : Timer) : Decidable (TimerOK cur rounds t) := by
  cases t <;> (unfold TimerOK; infer_instance)

/-- The reachable-room invariant behind the round-index claim: a positive
configured round count, a round index bounded by it, and at most one
pending timer, which matches the round in flight. -/
def RoomInv (c : Config) (rid : String) : Prop :=
  match c.store rid with
  | none => True
  | some r =>
    r.rounds ≠ 0 ∧ r.currentRound ≤ r.rounds ∧
    (timersFor rid c.timers).length ≤ 1 ∧
    ∀ t ∈ timersFor rid c.timers, TimerOK r.currentRound r.rounds t

instance (c : Config) (rid : String) : Decidable (RoomInv c rid) := by
  unfold RoomInv
  cases c.store rid <;> infer_instance

/-- A room's current round index (0 for an unknown room). -/
def roundIdx (c : Config) (rid : String) : ℕ :=
  match c.store rid with
  | none => 0
  | some r => r.currentRound

/-- The side condition of the amended round-index claim: the next operation
is not a settings update, and, if it is a start command, the room it would
start is still in the lobby. -/
def lobbyStartOK (c : Config) : Op → Bool
  | Op.startGame sock _ _ _ =>
    (match (c.sessions sock).currentRoom with
     | none => true
     | some rid =>
       match c.store rid with
       | none => true
       | some r => r.currentRound == 0)
  | Op.hostSettings _ _ _ _ => false
  | _ => true

/-- `lobbyStartOK` holds at every step of the run. -/
def lobbyStartsOnly (dict : List (List Char)) (c : Config) : List Op → Bool
  | [] => true
  | op :: rest =>
    lobbyStartOK c op && lobbyStartsOnly dict (step dict c op).1 rest

/-- The invariant relating the duplicate-statistics maps to the processed
prefix of the submission list: the count of a word is the size of its
group so far, and the recorded first submitter is a member of the group
with a minimal timestamp. -/
def StatsInv (pre : List (String × SubData)) (st : WordStats) : Prop :=
  ∀ w, st.counts w = (wordGroup pre w).length ∧
    ((wordGroup pre w = [] ∧ st.firstSub w = none) ∨
     (∃ e, e ∈ wordGroup pre w ∧
        st.firstSub w = some (e.1, e.2.submissionTime) ∧
        ∀ e' ∈ wordGroup pre w,
          e.2.submissionTime ≤ e'.2.submissionTime))

end Server

/-! ## Helper lemmas -/

/-- `roundTo2` never drops below an integer lower bound of its argument. -/
lemma roundTo2_int_le {m : ℤ} {q : ℚ} (h : (m : ℚ) ≤ q) :
    (m : ℚ) ≤ roundTo2 q := by
  unfold roundTo2
  rw [le_div_iff₀ (by norm_num : (0 : ℚ) < 100)]
  have hfl : (m * 100 : ℤ) ≤ ⌊q * 100 + 1/2⌋ := by
    rw [Int.le_floor]
    push_cast
    nlinarith
  calc (m : ℚ) * 100 = ((m * 100 : ℤ) : ℚ) := by push_cast; ring
    _ ≤ ((⌊q * 100 + 1/2⌋ : ℤ) : ℚ) := by exact_mod_cast hfl

/-- `roundTo2` of a nonnegative rational is nonnegative. -/
lemma roundTo2_nonneg {q : ℚ} (h : 0 ≤ q) : 0 ≤ roundTo2 q := by
  have := roundTo2_int_le (m := 0) (q := q) (by exact_mod_cast h)
  simpa using this

namespace VariantA

/-- Branch lemma: a word failing the dictionary check scores the empty
breakdown. -/
lemma calculateScore_of_invalid {p : ScoreParams}
    (hv : validateWord (normalize p.word) p.dictionary = false) :
    calculateScore p = emptyBreakdown := by
  simp only [calculateScore]
  rw [hv]
  rfl

/-- Branch lemma: a dictionary-valid word missing a required letter scores
only the +5 validity component, with `roundPoints = 0`. -/
lemma calculateScore_of_missing {p : ScoreParams}
    (hv : validateWord (normalize p.word) p.dictionary = true)
    (hc : containsAllLetters (normalize p.word) p.letters = false) :
    calculateScore p = { emptyBreakdown with validWord := 5 } := by
  simp only [calculateScore]
  rw [hv, hc]
  rfl

/-- Branch lemma: the breakdown of a fully accepted variant-A word. -/
lemma calculateScore_of_valid {p : ScoreParams}
    (hv : validateWord (normalize p.word) p.dictionary = true)
    (hc : containsAllLetters (normalize p.word) p.letters = true) :
    calculateScore p =
      { isValid := true, validWord := 5, containsAll := 3,
        lengthBonus := max 0 (((normalize p.word).length : ℚ) - 5),
        speedBonus := if p.timeElapsed ≤ p.totalTime / 2 then 2 else 0,
        originalityBonus := if p.isFirstDuplicate then 5 else 0,
        timeMultiplier :=
          1 + max 0 (p.totalTime - p.timeElapsed) / p.totalTime * (1/10),
        basePoints := 5 + 3 + max 0 (((normalize p.word).length : ℚ) - 5) +
          (if p.timeElapsed ≤ p.totalTime / 2 then 2 else 0) +
          (if p.isFirstDuplicate then 5 else 0),
        roundPoints := roundTo2
          ((5 + 3 + max 0 (((normalize p.word).length : ℚ) - 5) +
            (if p.timeElapsed ≤ p.totalTime / 2 then 2 else 0) +
            (if p.isFirstDuplicate then 5 else 0)) *
           (1 + max 0 (p.totalTime - p.timeElapsed) / p.totalTime * (1/10))) } := by
  simp only [calculateScore]
  rw [hv, hc]
  rfl

end VariantA

namespace VariantB

/-- Branch lemma: a normalized word shorter than 3 characters scores the
empty breakdown with the length reason. -/
lemma calculateScore_of_short {p : ScoreParams}
    (h3 : (normalize p.word).length < 3) :
    calculateScore p =
      { emptyBreakdown with reason := "Word must be at least 3 letters" } := by
  simp only [calculateScore]
  rw [if_pos h3]

/-- Branch lemma: a word failing the dictionary check scores the empty
breakdown with the dictionary reason. -/
lemma calculateScore_of_invalid_word {p : ScoreParams}
    (h3 : ¬ (normalize p.word).length < 3)
    (hv : validateWord (normalize p.word) p.dictionary = false) :
    calculateScore p =
      { emptyBreakdown with reason := "Word not in dictionary" } := by
  simp only [calculateScore]
  rw [if_neg h3, hv]
  rfl

/-- Branch lemma: a dictionary-valid word that cannot be formed from the
main word keeps only the +5 validity component, with `roundPoints = 0`. -/
lemma calculateScore_of_unformable {p : ScoreParams}
    (h3 : ¬ (normalize p.word).length < 3)
    (hv : validateWord (normalize p.word) p.dictionary = true)
    (hf : canFormWord (normalize p.word) p.mainWord = false) :
    calculateScore p =
      { emptyBreakdown with
        validWord := 5
        reason := "Cannot be formed from main word" } := by
  simp only [calculateScore]
  rw [if_neg h3, hv, hf]
  rfl

/-- The letter-consumption loop succeeds exactly on multiset inclusion:
every character may be used at most as often as it is available. -/
lemma canFormWordAux_iff (s : List Char) : ∀ avail : List Char,
    canFormWordAux s avail = true ↔ ∀ c, s.count c ≤ avail.count c := by
  induction s with
  | nil =>
    intro avail
    simp [canFormWordAux]
  | cons c rest ih =>
    intro avail
    by_cases hmem : c ∈ avail
    · have hcont : avail.contains c = true := by
        simpa [List.elem_iff] using hmem
      have hstep : canFormWordAux (c :: rest) avail =
          canFormWordAux rest (avail.erase c) := by
        conv_lhs => unfold canFormWordAux
        rw [hcont]
        rfl
      rw [hstep, ih]
      have hcnt : 0 < avail.count c := List.count_pos_iff.mpr hmem
      constructor
      · intro H d
        have hd := H d
        rcases eq_or_ne d c with rfl | hne
        · rw [List.count_cons_self]
          rw [List.count_erase_self] at hd
          omega
        · rw [List.count_cons_of_ne hne]
          rw [List.count_erase_of_ne hne] at hd
          exact hd
      · intro H d
        have hd := H d
        rcases eq_or_ne d c with rfl | hne
        · rw [List.count_erase_self]
          rw [List.count_cons_self] at hd
          omega
        · rw [List.count_erase_of_ne hne]
          rw [List.count_cons_of_ne hne] at hd
          exact hd
    · have hcont : avail.contains c = false := by
        simpa [List.elem_iff] using hmem
      have hz : avail.count c = 0 := List.count_eq_zero.mpr hmem
      have hstep : canFormWordAux (c :: rest) avail = false := by
        conv_lhs => unfold canFormWordAux
        rw [hcont]
        rfl
      rw [hstep]
      simp only [Bool.false_eq_true, false_iff]
      intro H
      have := H c
      rw [List.count_cons_self] at this
      omega

end VariantB

/-! ## C3 — variant B: formability is exactly the multiset-subset check -/

/-- C3: in variant B, a submitted word is formable iff no character is used
more often than it occurs in the main word (both lower-cased); any
submission exceeding a character's multiplicity scores `roundPoints = 0`
(even when dictionary-valid); and `peppy` against main word `apple` fails
(three p's needed, two available). -/
theorem claim_C3 :
    (∀ subword mainWord : List Char,
      VariantB.canFormWord subword mainWord = true ↔
        ∀ c, (subword.map Char.toLower).count c ≤
          (mainWord.map Char.toLower).count c) ∧
    (∀ p : VariantB.ScoreParams,
      (∃ c, (p.mainWord.map Char.toLower).count c <
          ((normalize p.word).map Char.toLower).count c) →
      (VariantB.calculateScore p).roundPoints = 0) ∧
    (VariantB.canFormWord ['p','e','p','p','y'] ['a','p','p','l','e'] =
      false) := by
  refine ⟨?_, ?_, by decide⟩
  · intro subword mainWord
    exact VariantB.canFormWordAux_iff _ _
  · intro p hex
    by_cases h3 : (normalize p.word).length < 3
    · rw [VariantB.calculateScore_of_short h3]
      rfl
    · rcases Bool.eq_false_or_eq_true
          (validateWord (normalize p.word) p.dictionary) with hv | hv
      · rcases Bool.eq_false_or_eq_true
            (VariantB.canFormWord (normalize p.word) p.mainWord) with hf | hf
        · exfalso
          obtain ⟨c, hc⟩ := hex
          have := (VariantB.canFormWordAux_iff _ _).mp hf c
          omega
        · rw [VariantB.calculateScore_of_unformable h3 hv hf]
          rfl
      · rw [VariantB.calculateScore_of_invalid_word h3 hv]
        rfl

/-- Witness for C3: the dictionary-valid word `peppy` needs three p's,
`apple` offers two, and the submission scores 0. -/
theorem claim_C3_witness :
    (∃ c, ((['a','p','p','l','e'] : List Char).map Char.toLower).count c <
        ((normalize ['p','e','p','p','y']).map Char.toLower).count c) ∧
    (VariantB.calculateScore
      { word := ['p','e','p','p','y'], mainWord := ['a','p','p','l','e'],
        dictionary := [['p','e','p','p','y']], timeElapsed := 1,
        totalTime := 60, isDuplicate := false, isFirstDuplicate := false,
        allSubmittedWords := [] }).roundPoints = 0 :=
  ⟨⟨'p', by decide⟩, claim_C3.2.1 _ ⟨'p', by decide⟩⟩

/-! ## C4 — the EATS end-to-end breakdown -/

/-- C4: in a variant-A round of 15 seconds with required letters
`[A, T, E, S]`, a sole submission of `EATS` at 5 seconds elapsed (duplicate
flags false), against any dictionary containing `eats`, produces exactly
`validWord = 5`, `containsAll = 3`, `lengthBonus = 0`, `speedBonus = 2`,
`originalityBonus = 0`, `basePoints = 10`,
`timeMultiplier = 1 + ((15 − 5)/15) · 0.1 = 16/15`, and
`roundPoints = 10.67`. -/
theorem claim_C4 (dict : List (List Char))
    (h : dict.contains ['e','a','t','s'] = true) :
    VariantA.calculateScore
      { word := ['e','a','t','s'], letters := ['A','T','E','S'],
        dictionary := dict, timeElapsed := 5, totalTime := 15,
        isDuplicate := false, isFirstDuplicate := false } =
    { isValid := true, validWord := 5, containsAll := 3, lengthBonus := 0,
      speedBonus := 2, originalityBonus := 0,
      timeMultiplier := 1 + (15 - 5) / 15 * (1/10), basePoints := 10,
      roundPoints := 1067/100 } := by
  have hn : normalize ['e','a','t','s'] = ['e','a','t','s'] := by decide
  have hv : validateWord (normalize ['e','a','t','s']) dict = true := by
    simp [validateWord, hn]
    exact ⟨by decide, by simpa using h⟩
  have hc : VariantA.containsAllLetters
      (normalize ['e','a','t','s']) ['A','T','E','S'] = true := by decide
  rw [VariantA.calculateScore_of_valid (p :=
    { word := ['e','a','t','s'], letters := ['A','T','E','S'],
      dictionary := dict, timeElapsed := 5, totalTime := 15,
      isDuplicate := false, isFirstDuplicate := false }) hv hc]
  rw [hn]
  norm_num [roundTo2]

/-- Witness for C4 with the one-word dictionary `[eats]`. -/
theorem claim_C4_witness :
    ([['e','a','t','s']].contains ['e','a','t','s'] = true) ∧
    VariantA.calculateScore
      { word := ['e','a','t','s'], letters := ['A','T','E','S'],
        dictionary := [['e','a','t','s']], timeElapsed := 5, totalTime := 15,
        isDuplicate := false, isFirstDuplicate := false } =
    { isValid := true, validWord := 5, containsAll := 3, lengthBonus := 0,
      speedBonus := 2, originalityBonus := 0,
      timeMultiplier := 1 + (15 - 5) / 15 * (1/10), basePoints := 10,
      roundPoints := 1067/100 } :=
  ⟨by decide, claim_C4 _ (by decide)⟩

namespace Server

/-- The counts map after one dedup step. -/
lemma dedupStep_counts (st : WordStats) (e : String × SubData)
    (w : List Char) :
    (dedupStep st e).counts w =
      if w = normalize e.2.word then
        st.counts (normalize e.2.word) + 1
      else st.counts w := rfl

/-- The first-submitter map after one dedup step. -/
lemma dedupStep_firstSub (st : WordStats) (e : String × SubData)
    (w : List Char) :
    (dedupStep st e).firstSub w =
      if w = normalize e.2.word then
        (if st.counts (normalize e.2.word) = 0 then
          some (e.1, e.2.submissionTime)
        else
          match st.firstSub (normalize e.2.word) with
          | some (sid, t) =>
            if e.2.submissionTime < t then some (e.1, e.2.submissionTime)
            else some (sid, t)
          | none => none)
      else st.firstSub w := by
  by_cases h0 : st.counts (normalize e.2.word) = 0
  · simp only [dedupStep, h0, if_pos rfl]
    by_cases hw : w = normalize e.2.word <;> simp [hw]
  · simp only [dedupStep, h0, if_neg h0]
    cases hm : st.firstSub (normalize e.2.word) with
    | none =>
      by_cases hw : w = normalize e.2.word
      · subst hw
        simp [hm]
      · simp [hw]
    | some pr =>
      obtain ⟨sid, t⟩ := pr
      by_cases hlt : e.2.submissionTime < t <;>
        by_cases hw : w = normalize e.2.word <;>
        simp [hm, hlt, hw]

/-- The word groups of an extended submission list. -/
lemma wordGroup_append (pre l : List (String × SubData)) (w : List Char) :
    wordGroup (pre ++ l) w = wordGroup pre w ++ wordGroup l w :=
  List.filter_append _ _

/-- The word group of a singleton list. -/
lemma wordGroup_singleton (e : String × SubData) (w : List Char) :
    wordGroup [e] w = if normalize e.2.word = w then [e] else [] := by
  by_cases hw : normalize e.2.word = w <;> simp [wordGroup, hw]

/-- One dedup step preserves the statistics invariant. -/
lemma statsInv_step {pre : List (String × SubData)} {st : WordStats}
    (e : String × SubData) (h : StatsInv pre st) :
    StatsInv (pre ++ [e]) (dedupStep st e) := by
  intro w
  obtain ⟨hc, hf⟩ := h w
  have hgroup : wordGroup (pre ++ [e]) w =
      wordGroup pre w ++ wordGroup [e] w := wordGroup_append pre [e] w
  by_cases hw : w = normalize e.2.word
  · have hnw : normalize e.2.word = w := hw.symm
    have hg1 : wordGroup [e] w = [e] := by
      rw [wordGroup_singleton, if_pos hnw]
    constructor
    · rw [dedupStep_counts, if_pos hw, hnw, hgroup, hg1, List.length_append,
        hc]
      rfl
    · by_cases h0 : st.counts w = 0
      · have hempty : wordGroup pre w = [] :=
          List.length_eq_zero.mp (by rw [← hc]; exact h0)
        right
        refine ⟨e, ?_, ?_, ?_⟩
        · rw [hgroup, hempty]
          simp [hg1]
        · rw [dedupStep_firstSub, if_pos hw, hnw, if_pos h0]
        · intro e' he'
          rw [hgroup, hempty, List.nil_append, hg1] at he'
          have : e' = e := List.mem_singleton.mp he'
          rw [this]
      · rcases hf with ⟨hemp, _⟩ | ⟨m, hm, hfs, hmin⟩
        · exact absurd (by rw [hc, hemp]; rfl) h0
        · by_cases hlt : e.2.submissionTime < m.2.submissionTime
          · right
            refine ⟨e, ?_, ?_, ?_⟩
            · rw [hgroup, hg1]
              exact List.mem_append_right _ (List.mem_singleton.mpr rfl)
            · rw [dedupStep_firstSub, if_pos hw, hnw, if_neg h0, hfs]
              simp [hlt]
            · intro e' he'
              rw [hgroup, hg1] at he'
              rcases List.mem_append.mp he' with hp | hs
              · exact le_of_lt (lt_of_lt_of_le hlt (hmin e' hp))
              · rw [List.mem_singleton.mp hs]
          · right
            refine ⟨m, ?_, ?_, ?_⟩
            · rw [hgroup]
              exact List.mem_append_left _ hm
            · rw [dedupStep_firstSub, if_pos hw, hnw, if_neg h0, hfs]
              simp [hlt]
            · intro e' he'
              rw [hgroup, hg1] at he'
              rcases List.mem_append.mp he' with hp | hs
              · exact hmin e' hp
              · rw [List.mem_singleton.mp hs]
                exact le_of_not_lt hlt
  · have hg1 : wordGroup [e] w = [] := by
      rw [wordGroup_singleton, if_neg (fun hh => hw hh.symm)]
    have hcnt : (dedupStep st e).counts w = st.counts w := by
      rw [dedupStep_counts, if_neg hw]
    have hfs : (dedupStep st e).firstSub w = st.firstSub w := by
      rw [dedupStep_firstSub, if_neg hw]
    rw [hgroup, hg1, List.append_nil]
    exact ⟨by rw [hcnt]; exact hc, by rw [hfs]; exact hf⟩

/-- The statistics invariant carried through the whole loop. -/
lemma statsInv_foldl (l : List (String × SubData)) :
    ∀ (pre : List (String × SubData)) (st : WordStats),
      StatsInv pre st → StatsInv (pre ++ l) (l.foldl dedupStep st) := by
  induction l with
  | nil =>
    intro pre st h
    simpa using h
  | cons e rest ih =>
    intro pre st h
    have h1 := ih (pre ++ [e]) (dedupStep st e) (statsInv_step e h)
    simpa using h1

/-- The duplicate statistics of a full submission list satisfy the
invariant. -/
lemma statsInv_computeStats (subs : List (String × SubData)) :
    StatsInv subs (computeStats subs) := by
  have h0 : StatsInv [] emptyStats := by
    intro w
    exact ⟨rfl, Or.inl ⟨rfl, rfl⟩⟩
  have := statsInv_foldl subs [] emptyStats h0
  simpa [computeStats] using this

end Server

/-! ## C1 — the duplicate-group bonus goes to exactly one, earliest,
submitter -/

/-- C1: for every round submission snapshot (distinct socket ids, words
stored normalized, as `submitWord` records them) and every duplicate group
(≥ 2 submissions of the identical normalized word), `endRound` marks
exactly one member `isFirstDuplicate` — one whose recorded timestamp is
minimal in the group — and every other member is not marked.  The
originality (variant A) / first-to-find (variant B) bonus is exactly the
component driven by that flag: the marked submitter of a word that passes
the validity (and containment / formability) checks receives the +5 bonus,
an unmarked submission gets bonus 0, and changing only the duplicate flags
changes no other score component in either variant. -/
theorem claim_C1 :
    (∀ subs : List (String × Server.SubData),
      (subs.map Prod.fst).Nodup →
      (∀ e ∈ subs, normalize e.2.word = e.2.word) →
      ∀ w, 2 ≤ (Server.wordGroup subs w).length →
      ∃ e ∈ Server.wordGroup subs w,
        Server.isFirstDuplicate (Server.computeStats subs) e = true ∧
        (∀ e' ∈ Server.wordGroup subs w,
          e.2.submissionTime ≤ e'.2.submissionTime) ∧
        (∀ e' ∈ Server.wordGroup subs w, e' ≠ e →
          Server.isFirstDuplicate (Server.computeStats subs) e' = false)) ∧
    (∀ (p : VariantA.ScoreParams) (d₁ f₁ d₂ f₂ : Bool),
      (VariantA.calculateScore
        { p with isDuplicate := d₁, isFirstDuplicate := f₁ }).isValid =
        (VariantA.calculateScore
          { p with isDuplicate := d₂, isFirstDuplicate := f₂ }).isValid ∧
      (VariantA.calculateScore
        { p with isDuplicate := d₁, isFirstDuplicate := f₁ }).validWord =
        (VariantA.calculateScore
          { p with isDuplicate := d₂, isFirstDuplicate := f₂ }).validWord ∧
      (VariantA.calculateScore
        { p with isDuplicate := d₁, isFirstDuplicate := f₁ }).containsAll =
        (VariantA.calculateScore
          { p with isDuplicate := d₂, isFirstDuplicate := f₂ }).containsAll ∧
      (VariantA.calculateScore
        { p with isDuplicate := d₁, isFirstDuplicate := f₁ }).lengthBonus =
        (VariantA.calculateScore
          { p with isDuplicate := d₂, isFirstDuplicate := f₂ }).lengthBonus ∧
      (VariantA.calculateScore
        { p with isDuplicate := d₁, isFirstDuplicate := f₁ }).speedBonus =
        (VariantA.calculateScore
          { p with isDuplicate := d₂, isFirstDuplicate := f₂ }).speedBonus ∧
      (VariantA.calculateScore
        { p with isDuplicate := d₁, isFirstDuplicate := f₁ }).timeMultiplier =
        (VariantA.calculateScore
            { p with isDuplicate := d₂, isFirstDuplicate := f₂ }
          ).timeMultiplier) ∧
    (∀ p : VariantA.ScoreParams, p.isFirstDuplicate = false →
      (VariantA.calculateScore p).originalityBonus = 0) ∧
    (∀ p : VariantB.ScoreParams, p.isFirstDuplicate = false →
      (VariantB.calculateScore p).firstToFindBonus = 0) ∧
    (∀ (p : VariantB.ScoreParams) (f₁ f₂ : Bool),
      (VariantB.calculateScore
        { p with isFirstDuplicate := f₁ }).isValid =
        (VariantB.calculateScore { p with isFirstDuplicate := f₂ }).isValid ∧
      (VariantB.calculateScore
        { p with isFirstDuplicate := f₁ }).validWord =
        (VariantB.calculateScore { p with isFirstDuplicate := f₂ }).validWord ∧
      (VariantB.calculateScore
        { p with isFirstDuplicate := f₁ }).canBeFormed =
        (VariantB.calculateScore
          { p with isFirstDuplicate := f₂ }).canBeFormed ∧
      (VariantB.calculateScore
        { p with isFirstDuplicate := f₁ }).lengthBonus =
        (VariantB.calculateScore
          { p with isFirstDuplicate := f₂ }).lengthBonus ∧
      (VariantB.calculateScore
        { p with isFirstDuplicate := f₁ }).speedBonus =
        (VariantB.calculateScore
          { p with isFirstDuplicate := f₂ }).speedBonus ∧
      (VariantB.calculateScore
        { p with isFirstDuplicate := f₁ }).uniquenessBonus =
        (VariantB.calculateScore
          { p with isFirstDuplicate := f₂ }).uniquenessBonus) ∧
    (∀ p : VariantA.ScoreParams,
      validateWord (normalize p.word) p.dictionary = true →
      VariantA.containsAllLetters (normalize p.word) p.letters = true →
      p.isFirstDuplicate = true →
      (VariantA.calculateScore p).originalityBonus = 5) ∧
    (∀ p : VariantB.ScoreParams,
      ¬ (normalize p.word).length < 3 →
      validateWord (normalize p.word) p.dictionary = true →
      VariantB.canFormWord (normalize p.word) p.mainWord = true →
      p.isFirstDuplicate = true →
      (VariantB.calculateScore p).firstToFindBonus = 5) := by
  refine ⟨?_, ?_, ?_, ?_, ?_, ?_, ?_⟩
  · intro subs hnodup hnorm w h2
    obtain ⟨hc, hf⟩ := Server.statsInv_computeStats subs w
    rcases hf with ⟨hemp, _⟩ | ⟨m, hm, hfs, hmin⟩
    · rw [hemp] at h2
      simp at h2
    · have hsub : ∀ e' ∈ Server.wordGroup subs w, e' ∈ subs := by
        intro e' he'
        exact (List.mem_filter.mp he').1
      have hword : ∀ e' ∈ Server.wordGroup subs w, e'.2.word = w := by
        intro e' he'
        have hmemf := List.mem_filter.mp he'
        have hn : normalize e'.2.word = w := by
          simpa using hmemf.2
        rw [← hn, hnorm e' hmemf.1]
      refine ⟨m, hm, ?_, hmin, ?_⟩
      · have hgt : 1 < (Server.computeStats subs).counts m.2.word := by
          rw [hword m hm, hc]
          omega
        simp [Server.isFirstDuplicate, Server.isDuplicate, hword m hm, hfs,
          hc, decide_eq_true_eq]
        omega
      · intro e' he' hne
        have hne1 : ¬ (m.1 == e'.1) = true := by
          intro hbeq
          have heq : m.1 = e'.1 := by simpa using hbeq
          have : e' = m :=
            List.inj_on_of_nodup_map hnodup (hsub e' he') (hsub m hm) heq.symm
          exact hne this
        simp [Server.isFirstDuplicate, Server.isDuplicate, hword e' he', hfs]
        intro
        simpa using hne1
  · intro p d₁ f₁ d₂ f₂
    simp only [VariantA.calculateScore]
    refine ⟨?_, ?_, ?_, ?_, ?_, ?_⟩ <;> (split_ifs <;> rfl)
  · intro p hff
    simp only [VariantA.calculateScore]
    split_ifs <;> simp_all [VariantA.emptyBreakdown]
  · intro p hff
    simp only [VariantB.calculateScore]
    split_ifs <;> simp_all [VariantB.emptyBreakdown]
  · intro p f₁ f₂
    simp only [VariantB.calculateScore]
    refine ⟨?_, ?_, ?_, ?_, ?_, ?_⟩ <;> (split_ifs <;> rfl)
  · intro p hv hc hf
    rw [VariantA.calculateScore_of_valid hv hc]
    simp [hf]
  · intro p h3 hv hfm hf
    simp only [VariantB.calculateScore]
    rw [if_neg h3, hv, hfm]
    simp [hf]

/-- Witness for C1 at a concrete two-submission round: both sockets submit
`cat`, the later-enumerated socket `s2` has the earlier timestamp; the
flagged submitter of an accepted word concretely receives the +5 bonus in
both variants. -/
theorem claim_C1_witness :
    ((([("s1", { word := ['c','a','t'], submissionTime := 7, username := ['a'] }),
        ("s2", { word := ['c','a','t'], submissionTime := 3, username := ['b'] })] :
        List (String × Server.SubData)).map Prod.fst).Nodup ∧
     (∀ e ∈ ([("s1", { word := ['c','a','t'], submissionTime := 7, username := ['a'] }),
        ("s2", { word := ['c','a','t'], submissionTime := 3, username := ['b'] })] :
        List (String × Server.SubData)),
        normalize e.2.word = e.2.word)) ∧
    (∀ w, 2 ≤ (Server.wordGroup
        [("s1", { word := ['c','a','t'], submissionTime := 7, username := ['a'] }),
         ("s2", { word := ['c','a','t'], submissionTime := 3, username := ['b'] })] w).length →
      ∃ e ∈ Server.wordGroup
        [("s1", { word := ['c','a','t'], submissionTime := 7, username := ['a'] }),
         ("s2", { word := ['c','a','t'], submissionTime := 3, username := ['b'] })] w,
        Server.isFirstDuplicate (Server.computeStats
          [("s1", { word := ['c','a','t'], submissionTime := 7, username := ['a'] }),
           ("s2", { word := ['c','a','t'], submissionTime := 3, username := ['b'] })]) e = true ∧
        (∀ e' ∈ Server.wordGroup
          [("s1", { word := ['c','a','t'], submissionTime := 7, username := ['a'] }),
           ("s2", { word := ['c','a','t'], submissionTime := 3, username := ['b'] })] w,
          e.2.submissionTime ≤ e'.2.submissionTime) ∧
        (∀ e' ∈ Server.wordGroup
          [("s1", { word := ['c','a','t'], submissionTime := 7, username := ['a'] }),
           ("s2", { word := ['c','a','t'], submissionTime := 3, username := ['b'] })] w, e' ≠ e →
          Server.isFirstDuplicate (Server.computeStats
            [("s1", { word := ['c','a','t'], submissionTime := 7, username := ['a'] }),
             ("s2", { word := ['c','a','t'], submissionTime := 3, username := ['b'] })]) e' = false)) ∧
    (validateWord (normalize ['c','a','t']) [['c','a','t']] = true ∧
     VariantA.containsAllLetters (normalize ['c','a','t']) ['c'] = true ∧
     (VariantA.calculateScore
       { word := ['c','a','t'], letters := ['c'],
         dictionary := [['c','a','t']], timeElapsed := 1, totalTime := 15,
         isDuplicate := true, isFirstDuplicate := true }).originalityBonus =
       5) ∧
    (¬ (normalize ['c','a','t']).length < 3 ∧
     validateWord (normalize ['c','a','t']) [['c','a','t']] = true ∧
     VariantB.canFormWord (normalize ['c','a','t']) ['c','a','t','s'] =
       true ∧
     (VariantB.calculateScore
       { word := ['c','a','t'], mainWord := ['c','a','t','s'],
         dictionary := [['c','a','t']], timeElapsed := 1, totalTime := 60,
         isDuplicate := true, isFirstDuplicate := true,
         allSubmittedWords := [] }).firstToFindBonus = 5) :=
  ⟨⟨by decide, by decide⟩, claim_C1.1 _ (by decide) (by decide),
   ⟨by decide, by decide,
     claim_C1.2.2.2.2.2.1 _ (by decide) (by decide) rfl⟩,
   ⟨by decide, by decide, by decide,
     claim_C1.2.2.2.2.2.2 _ (by decide) (by decide) (by decide) rfl⟩⟩

namespace Server

/-- Replacing under key `k` in a mapped hash, observed at key `k'`. -/
lemma lookup_map_replace {α : Type} (l : List (String × α)) (k k' : String)
    (v : α) :
    lookup (l.map (fun e => if e.1 == k then (k, v) else e)) k' =
      if k' = k then
        (if l.any (fun e => e.1 == k) then some v else none)
      else lookup l k' := by
  induction l with
  | nil =>
    by_cases h : k' = k <;> simp [lookup, h]
  | cons e rest ih =>
    by_cases he : e.1 = k
    · by_cases hk : k' = k
      · subst hk
        simp [lookup, he]
      · have h1 : (k == k') = false := by
          simpa using fun hh : k = k' => hk hh.symm
        have h2 : (e.1 == k') = false := by
          simpa using fun hh : e.1 = k' => hk (hh.symm.trans he)
        simp [lookup, he, h1, h2, hk] at ih ⊢
        simpa [hk] using ih
    · have hfe : (e.1 == k) = false := by simpa using he
      by_cases hek' : e.1 = k'
      · have hk : ¬ k' = k := fun hh => he (hek'.trans hh)
        simp [lookup, hfe, hek', hk]
      · have h2 : (e.1 == k') = false := by simpa using hek'
        simp only [List.map_cons, hfe, Bool.false_eq_true, if_false,
          List.any_cons, lookup, h2]
        rw [ih]
        by_cases hk : k' = k
        · cases hrest : rest.any (fun e => e.1 == k) <;> simp [hk, hrest]
        · simp [hk]

/-- A key absent from the hash looks up to `none`. -/
lemma lookup_eq_none_of_not_any {α : Type} (l : List (String × α))
    (k : String) (h : l.any (fun e => e.1 == k) = false) :
    lookup l k = none := by
  induction l with
  | nil => rfl
  | cons e rest ih =>
    simp only [List.any_cons, Bool.or_eq_false_iff] at h
    simp [lookup, h.1, ih h.2]

/-- Lookup across a hash concatenation. -/
lemma lookup_append {α : Type} (l₁ l₂ : List (String × α)) (k : String) :
    lookup (l₁ ++ l₂) k =
      match lookup l₁ k with
      | some v => some v
      | none => lookup l₂ k := by
  induction l₁ with
  | nil => simp [lookup]
  | cons e rest ih =>
    by_cases he : (e.1 == k) = true
    · simp [lookup, he]
    · have hfe : (e.1 == k) = false := Bool.eq_false_iff.mpr he
      simp [lookup, hfe, ih]

/-- `hset` replace-or-append semantics, observed through `hget`. -/
lemma lookup_upsert {α : Type} (l : List (String × α)) (k k' : String)
    (v : α) :
    lookup (upsert l k v) k' = if k' = k then some v else lookup l k' := by
  unfold upsert
  by_cases hany : l.any (fun e => e.1 == k) = true
  · rw [if_pos hany, lookup_map_replace, hany]
    by_cases h : k' = k <;> simp [h]
  · have hany' : l.any (fun e => e.1 == k) = false :=
      Bool.eq_false_iff.mpr hany
    rw [if_neg (by rw [hany']; exact Bool.false_ne_true), lookup_append]
    by_cases h : k' = k
    · subst h
      rw [lookup_eq_none_of_not_any l k' hany']
      simp [lookup]
    · have h2 : (k == k') = false := by
        simpa using fun hh : k = k' => h hh.symm
      cases hfind : lookup l k' with
      | none => simp [hfind, lookup, h2, h]
      | some w => simp [hfind, h]

/-- Every variant-A round score is nonnegative (for a nonnegative round
duration). -/
lemma calculateScore_roundPoints_nonneg (p : VariantA.ScoreParams)
    (h : 0 ≤ p.totalTime) : 0 ≤ (VariantA.calculateScore p).roundPoints := by
  rcases Bool.eq_false_or_eq_true
      (validateWord (normalize p.word) p.dictionary) with hv | hv
  case inr =>
    rw [VariantA.calculateScore_of_invalid hv]
    exact le_refl _
  rcases Bool.eq_false_or_eq_true
      (VariantA.containsAllLetters (normalize p.word) p.letters)
    with hcl | hcl
  case inr =>
    rw [VariantA.calculateScore_of_missing hv hcl]
    exact le_refl _
  rw [VariantA.calculateScore_of_valid hv hcl]
  apply roundTo2_nonneg
  have hbase : (0 : ℚ) ≤ 5 + 3 + max 0 (((normalize p.word).length : ℚ) - 5) +
      (if p.timeElapsed ≤ p.totalTime / 2 then 2 else 0) +
      (if p.isFirstDuplicate then 5 else 0) := by
    have h1 : (0 : ℚ) ≤ max 0 (((normalize p.word).length : ℚ) - 5) :=
      le_max_left _ _
    split_ifs <;> nlinarith
  have hmul : (0 : ℚ) ≤
      1 + max 0 (p.totalTime - p.timeElapsed) / p.totalTime * (1/10) := by
    have h1 : (0 : ℚ) ≤ max 0 (p.totalTime - p.timeElapsed) := le_max_left _ _
    have h2 : (0 : ℚ) ≤ max 0 (p.totalTime - p.timeElapsed) / p.totalTime :=
      div_nonneg h1 h
    nlinarith
  positivity

end Server

namespace Server

/-- Reading back the room just written. -/
lemma setRoom_self (store : Store) (rid : String) (r : RoomState) :
    setRoom store rid r rid = some r := by
  simp [setRoom]

/-- Writing one room leaves the others unchanged. -/
lemma setRoom_other (store : Store) (rid' rid : String) (r : RoomState)
    (h : rid ≠ rid') : setRoom store rid' r rid = store rid := by
  simp [setRoom, h]

/-- Per-room timers of a concatenation. -/
lemma timersFor_append (rid : String) (ts₁ ts₂ : List Timer) :
    timersFor rid (ts₁ ++ ts₂) = timersFor rid ts₁ ++ timersFor rid ts₂ :=
  List.filter_append _ _

/-- Per-room timers of a singleton. -/
lemma timersFor_singleton (rid : String) (t : Timer) :
    timersFor rid [t] = if timerRid t == rid then [t] else [] := by
  by_cases h : (timerRid t == rid) = true <;>
    simp [timersFor, List.filter, h]

/-- Per-room timers after cancelling one timer. -/
lemma timersFor_erase (rid : String) (t : Timer) (ts : List Timer) :
    timersFor rid (ts.erase t) =
      if timerRid t == rid then (timersFor rid ts).erase t
      else timersFor rid ts := by
  induction ts with
  | nil =>
    by_cases h : (timerRid t == rid) = true <;> simp [timersFor, h]
  | cons u ts ih =>
    rw [List.erase_cons]
    by_cases hu : u = t
    · subst hu
      by_cases h : (timerRid u == rid) = true
      · simp [timersFor, List.filter_cons, h, List.erase_cons]
      · have h' : (timerRid u == rid) = false := Bool.eq_false_iff.mpr h
        simp [timersFor, List.filter_cons, h']
    · have hbeq : (u == t) = false := by simpa using hu
      rw [if_neg (by simp [hbeq])]
      by_cases hpu : (timerRid u == rid) = true
      · simp only [timersFor, List.filter_cons, hpu, if_true] at ih ⊢
        rw [ih]
        by_cases h : (timerRid t == rid) = true
        · simp [h, List.erase_cons, hbeq, timersFor]
        · have h' : (timerRid t == rid) = false := Bool.eq_false_iff.mpr h
          simp [h', timersFor]
      · have hpu' : (timerRid u == rid) = false := Bool.eq_false_iff.mpr hpu
        simp only [timersFor, List.filter_cons, hpu', Bool.false_eq_true,
          if_false] at ih ⊢
        exact ih

/-- A list of length at most one containing `a` is exactly `[a]`. -/
lemma eq_singleton_of_length_le_one {α : Type} {l : List α} {a : α}
    (hlen : l.length ≤ 1) (ha : a ∈ l) : l = [a] := by
  cases l with
  | nil => cases ha
  | cons x rest =>
    cases rest with
    | nil =>
      have : a = x := by simpa using ha
      rw [this]
    | cons y r₂ => simp at hlen

/-- `RoomInv` unfolded at an existing room. -/
lemma roomInv_some_iff {c : Config} {rid : String} {r : RoomState}
    (hs : c.store rid = some r) :
    RoomInv c rid ↔
      (r.rounds ≠ 0 ∧ r.currentRound ≤ r.rounds ∧
       (timersFor rid c.timers).length ≤ 1 ∧
       ∀ t ∈ timersFor rid c.timers, TimerOK r.currentRound r.rounds t) := by
  unfold RoomInv
  rw [hs]

/-- `RoomInv` holds trivially at an unknown room. -/
lemma roomInv_none {c : Config} {rid : String}
    (hs : c.store rid = none) : RoomInv c rid := by
  unfold RoomInv
  rw [hs]
  trivial

/-- `roundIdx` at an existing room. -/
lemma roundIdx_some {c : Config} {rid : String} {r : RoomState}
    (hs : c.store rid = some r) : roundIdx c rid = r.currentRound := by
  unfold roundIdx
  rw [hs]

/-- `roundIdx` at an unknown room. -/
lemma roundIdx_none {c : Config} {rid : String}
    (hs : c.store rid = none) : roundIdx c rid = 0 := by
  unfold roundIdx
  rw [hs]

/-- A step that leaves a room's record and timers alone preserves its
invariant and its round index. -/
lemma preserve_untouched {c c' : Config} {rid : String}
    (hInv : RoomInv c rid) (hs : c'.store rid = c.store rid)
    (ht : timersFor rid c'.timers = timersFor rid c.timers) :
    RoomInv c' rid ∧ roundIdx c rid ≤ roundIdx c' rid := by
  constructor
  · unfold RoomInv at hInv ⊢
    rw [hs, ht]
    exact hInv
  · unfold roundIdx
    rw [hs]

/-- A step that rewrites a room's record without touching its round index,
round count, or timers preserves the invariant and the round index. -/
lemma preserve_same_counters {c c' : Config} {rid : String}
    {r r' : RoomState} (hInv : RoomInv c rid)
    (hs0 : c.store rid = some r) (hs : c'.store rid = some r')
    (hcur : r'.currentRound = r.currentRound) (hround : r'.rounds = r.rounds)
    (ht : timersFor rid c'.timers = timersFor rid c.timers) :
    RoomInv c' rid ∧ roundIdx c rid ≤ roundIdx c' rid := by
  have h := (roomInv_some_iff hs0).mp hInv
  constructor
  · refine (roomInv_some_iff hs).mpr ?_
    rw [hcur, hround, ht]
    exact h
  · rw [roundIdx_some hs0, roundIdx_some hs, hcur]

/-- The store after a `joinRoom` command: unchanged, or one room's players
hash rewritten. -/
lemma handleJoinRoom_store (store : Store) (sess : Session)
    (sock roomId : String) (rawU : List Char) (now : ℤ) :
    (handleJoinRoom store sess sock roomId rawU now).1 = store ∨
    ∃ r r', store roomId = some r ∧
      (handleJoinRoom store sess sock roomId rawU now).1 =
        setRoom store roomId r' ∧
      r'.currentRound = r.currentRound ∧ r'.rounds = r.rounds := by
  unfold handleJoinRoom
  by_cases hu : (sanitizeUsername rawU).isEmpty = true
  · left
    simp [hu]
  · cases hsr : store roomId with
    | none =>
      left
      simp [hu, hsr]
    | some r =>
      right
      refine ⟨r, { r with players := upsert r.players sock { username := sanitizeUsername rawU, totalPoints := 0, lastWord := [], lastRoundPoints := 0, joinedAt := now } }, rfl, ?_, rfl, rfl⟩
      simp [hu, hsr]

/-- The store after a `submitWord` command: unchanged, or one room's
submission hash for its current round extended. -/
lemma handleSubmitWord_store (store : Store) (sess : Session)
    (sock : String) (word : List Char) (now : ℤ) :
    (handleSubmitWord store sess sock word now).1 = store ∨
    ∃ rid r r', sess.currentRoom = some rid ∧ store rid = some r ∧
      (handleSubmitWord store sess sock word now).1 = setRoom store rid r' ∧
      r'.currentRound = r.currentRound ∧ r'.rounds = r.rounds := by
  unfold handleSubmitWord
  cases hc : sess.currentRoom with
  | none => left; rfl
  | some rid =>
    by_cases hu : sess.username.isEmpty = true
    · left
      simp [hu]
    · cases hsr : store rid with
      | none =>
        left
        simp [hu, hsr]
      | some r =>
        cases hst : r.roundStart r.currentRound with
        | none =>
          left
          simp [hu, hsr, hst]
        | some t0 =>
          by_cases hdup :
              (r.submissions r.currentRound).any (fun e => e.1 == sock) = true
          · left
            simp [hu, hsr, hst, hdup]
          · right
            refine ⟨rid, r, { r with submissions := fun m => if m = r.currentRound then r.submissions r.currentRound ++ [(sock, { word := normalize word, submissionTime := now, username := sess.username })] else r.submissions m }, rfl, hsr, ?_, rfl, rfl⟩
            simp [hu, hsr, hst, hdup]

/-- The store after a `disconnect`: unchanged, or one room's players hash
filtered. -/
lemma handleDisconnect_store (store : Store) (sess : Session)
    (sock : String) :
    (handleDisconnect store sess sock).1 = store ∨
    ∃ rid r r', sess.currentRoom = some rid ∧ store rid = some r ∧
      (handleDisconnect store sess sock).1 = setRoom store rid r' ∧
      r'.currentRound = r.currentRound ∧ r'.rounds = r.rounds := by
  unfold handleDisconnect
  cases hc : sess.currentRoom with
  | none => left; rfl
  | some rid =>
    cases hsr : store rid with
    | none =>
      left
      simp [hsr]
    | some r =>
      right
      refine ⟨rid, r, { r with players := r.players.filter (fun e => !(e.1 == sock)) }, rfl, hsr, ?_, rfl, rfl⟩
      simp [hsr]

/-- `startRound` at an existing room. -/
lemma startRound_eq_some (store : Store) (rid : String) (n : ℕ) (now : ℤ)
    (letters : List Char) (r : RoomState) (h : store rid = some r) :
    startRound store rid n now letters =
      (setRoom store rid { r with
        roundStart := fun m => if m = n then some now else r.roundStart m
        roundLetters := fun m => if m = n then some letters
          else r.roundLetters m
        submissions := fun m => if m = n then [] else r.submissions m },
       [Timer.endR rid n letters (orDefault r.roundDuration 15)
          (orDefault r.rounds 10)],
       [Ev.newRound n]) := by
  simp [startRound, h]

/-- `endRound` at an existing, non-final round. -/
lemma endRound_eq_lt (dict : List (List Char)) (store : Store)
    (rid : String) (n : ℕ) (ls : List Char) (dur tot : ℕ) (r : RoomState)
    (h : store rid = some r) (hlt : n < tot) :
    endRound dict store rid n ls dur tot =
      (setRoom store rid { r with
        players := (scoreRound dict ls ((r.roundStart n).getD 0) dur
          r.players (r.submissions n)).1
        currentRound := n + 1 },
       [Timer.startR rid (n + 1)],
       [Ev.scoringInProgress, Ev.roundResults
         (scoreRound dict ls ((r.roundStart n).getD 0) dur
           r.players (r.submissions n)).2]) := by
  simp [endRound, h, hlt]

/-- `endRound` at an existing, final round. -/
lemma endRound_eq_ge (dict : List (List Char)) (store : Store)
    (rid : String) (n : ℕ) (ls : List Char) (dur tot : ℕ) (r : RoomState)
    (h : store rid = some r) (hge : ¬ n < tot) :
    endRound dict store rid n ls dur tot =
      (setRoom store rid { r with
        players := (scoreRound dict ls ((r.roundStart n).getD 0) dur
          r.players (r.submissions n)).1 },
       [],
       [Ev.scoringInProgress, Ev.roundResults
         (scoreRound dict ls ((r.roundStart n).getD 0) dur
           r.players (r.submissions n)).2, Ev.gameOver]) := by
  simp [endRound, h, hge]

/-- One server step preserves the per-room invariant and never decreases
the room's round index, provided the step is not a settings update and any
start command fires only from the lobby. -/
lemma step_preserves (dict : List (List Char)) (c : Config) (op : Op)
    (rid : String) (hInv : RoomInv c rid)
    (hOK : lobbyStartOK c op = true) :
    RoomInv (step dict c op).1 rid ∧
    roundIdx c rid ≤ roundIdx (step dict c op).1 rid := by
  cases op with
  | joinRoom sock roomId rawU now =>
    have hst : (step dict c (Op.joinRoom sock roomId rawU now)).1.store =
        (handleJoinRoom c.store (c.sessions sock) sock roomId rawU now).1 :=
      rfl
    have htm : (step dict c (Op.joinRoom sock roomId rawU now)).1.timers =
        c.timers := rfl
    rcases handleJoinRoom_store c.store (c.sessions sock) sock roomId rawU now
      with heq | ⟨r, r', hsr, heq, hcur, hround⟩
    · exact preserve_untouched hInv (by rw [hst, heq]) (by rw [htm])
    · by_cases hridEq : rid = roomId
      · subst hridEq
        exact preserve_same_counters hInv hsr
          (by rw [hst, heq, setRoom_self]) hcur hround (by rw [htm])
      · exact preserve_untouched hInv
          (by rw [hst, heq]; exact setRoom_other _ _ _ _ hridEq)
          (by rw [htm])
  | hostSettings sock rounds dur code =>
    simp [lobbyStartOK] at hOK
  | submitWord sock word now =>
    have hst : (step dict c (Op.submitWord sock word now)).1.store =
        (handleSubmitWord c.store (c.sessions sock) sock word now).1 := rfl
    have htm : (step dict c (Op.submitWord sock word now)).1.timers =
        c.timers := rfl
    rcases handleSubmitWord_store c.store (c.sessions sock) sock word now
      with heq | ⟨rid', r, r', _, hsr, heq, hcur, hround⟩
    · exact preserve_untouched hInv (by rw [hst, heq]) (by rw [htm])
    · by_cases hridEq : rid = rid'
      · subst hridEq
        exact preserve_same_counters hInv hsr
          (by rw [hst, heq, setRoom_self]) hcur hround (by rw [htm])
      · exact preserve_untouched hInv
          (by rw [hst, heq]; exact setRoom_other _ _ _ _ hridEq)
          (by rw [htm])
  | disconnect sock =>
    have hst : (step dict c (Op.disconnect sock)).1.store =
        (handleDisconnect c.store (c.sessions sock) sock).1 := rfl
    have htm : (step dict c (Op.disconnect sock)).1.timers = c.timers := rfl
    rcases handleDisconnect_store c.store (c.sessions sock) sock
      with heq | ⟨rid', r, r', _, hsr, heq, hcur, hround⟩
    · exact preserve_untouched hInv (by rw [hst, heq]) (by rw [htm])
    · by_cases hridEq : rid = rid'
      · subst hridEq
        exact preserve_same_counters hInv hsr
          (by rw [hst, heq, setRoom_self]) hcur hround (by rw [htm])
      · exact preserve_untouched hInv
          (by rw [hst, heq]; exact setRoom_other _ _ _ _ hridEq)
          (by rw [htm])
  | startGame sock code now letters =>
    have hst : (step dict c (Op.startGame sock code now letters)).1.store =
        (handleStartGame c.store (c.sessions sock) code now letters).1 := rfl
    have htm : (step dict c (Op.startGame sock code now letters)).1.timers =
        c.timers ++
          (handleStartGame c.store (c.sessions sock) code now letters).2.1 :=
      rfl
    cases hc : (c.sessions sock).currentRoom with
    | none =>
      have heq : handleStartGame c.store (c.sessions sock) code now letters =
          (c.store, [], []) := by
        simp [handleStartGame, hc]
      exact preserve_untouched hInv (by rw [hst, heq])
        (by rw [htm, heq]; simp)
    | some rid' =>
      cases hsr : c.store rid' with
      | none =>
        have heq : handleStartGame c.store (c.sessions sock) code now
            letters = (c.store, [], [Ev.error ErrCode.UNAUTHORIZED]) := by
          simp [handleStartGame, hc, hsr]
        exact preserve_untouched hInv (by rw [hst, heq])
          (by rw [htm, heq]; simp)
      | some r =>
        by_cases hauth : r.hostCode ≠ code
        · have heq : handleStartGame c.store (c.sessions sock) code now
              letters = (c.store, [], [Ev.error ErrCode.UNAUTHORIZED]) := by
            simp [handleStartGame, hc, hsr, hauth]
          exact preserve_untouched hInv (by rw [hst, heq])
            (by rw [htm, heq]; simp)
        · have heq0 : handleStartGame c.store (c.sessions sock) code now
              letters =
              startRound (setRoom c.store rid'
                { r with currentRound := 1, gameStarted := some now })
                rid' 1 now letters := by
            simp [handleStartGame, hc, hsr, hauth]
          have hr1 : (setRoom c.store rid'
              { r with currentRound := 1, gameStarted := some now }) rid' =
              some { r with currentRound := 1, gameStarted := some now } :=
            setRoom_self _ _ _
          rw [startRound_eq_some _ _ _ _ _ _ hr1] at heq0
          by_cases hridEq : rid = rid'
          · subst hridEq
            have hcur0 : r.currentRound = 0 := by
              simp [lobbyStartOK, hc, hsr] at hOK
              exact hOK
            obtain ⟨hr0, _, hlen, hok⟩ := (roomInv_some_iff hsr).mp hInv
            have hempty : timersFor rid c.timers = [] := by
              apply List.eq_nil_iff_forall_not_mem.mpr
              intro t ht
              have hTok := hok t ht
              cases t with
              | endR _ n _ _ tot =>
                obtain ⟨hn, hnne, _⟩ := hTok
                exact hnne (hn.trans hcur0)
              | startR _ n =>
                obtain ⟨hn, hnne, _⟩ := hTok
                exact hnne (hn.trans hcur0)
            have hstore' :
                (step dict c (Op.startGame sock code now letters)).1.store
                  rid = some { r with
                    currentRound := 1
                    gameStarted := some now
                    roundStart := fun m =>
                      if m = 1 then some now else r.roundStart m
                    roundLetters := fun m =>
                      if m = 1 then some letters else r.roundLetters m
                    submissions := fun m =>
                      if m = 1 then [] else r.submissions m } := by
              rw [hst, heq0]
              dsimp only
              rw [setRoom_self]
            have htimers' : timersFor rid
                (step dict c (Op.startGame sock code now letters)).1.timers =
                [Timer.endR rid 1 letters (orDefault r.roundDuration 15)
                  (orDefault r.rounds 10)] := by
              rw [htm, heq0]
              dsimp only
              rw [timersFor_append, hempty, timersFor_singleton]
              simp [timerRid]
            constructor
            · apply (roomInv_some_iff hstore').mpr
              refine ⟨hr0, Nat.one_le_iff_ne_zero.mpr hr0, ?_, ?_⟩
              · rw [htimers']
                simp
              · rw [htimers']
                intro t' ht'
                have : t' = Timer.endR rid 1 letters
                    (orDefault r.roundDuration 15) (orDefault r.rounds 10) := by
                  simpa using ht'
                rw [this]
                refine ⟨rfl, one_ne_zero, ?_⟩
                unfold orDefault
                rw [if_neg hr0]
            · rw [roundIdx_some hsr, roundIdx_some hstore', hcur0]
              exact Nat.zero_le _
          · apply preserve_untouched hInv
            · rw [hst, heq0]
              dsimp only
              rw [setRoom_other _ _ _ _ hridEq, setRoom_other _ _ _ _ hridEq]
            · rw [htm, heq0]
              dsimp only
              rw [timersFor_append, timersFor_singleton]
              rw [if_neg (by simpa [timerRid] using fun hh => hridEq hh.symm)]
              simp
  | fireTimer t now letters =>
    by_cases hmem : c.timers.contains t = true
    case neg =>
      have hmem' : ¬ t ∈ c.timers := by simpa using hmem
      have hstep : (step dict c (Op.fireTimer t now letters)).1 = c := by
        simp [step, hmem']
      rw [hstep]
      exact ⟨hInv, le_refl _⟩
    case pos =>
      have hmem' : t ∈ c.timers := by simpa using hmem
      cases t with
      | endR rid' n ls dur tot =>
        have hst : (step dict c
            (Op.fireTimer (Timer.endR rid' n ls dur tot) now letters)).1.store
            = (endRound dict c.store rid' n ls dur tot).1 := by
          simp [step, hmem']
        have htm : (step dict c
            (Op.fireTimer (Timer.endR rid' n ls dur tot) now
              letters)).1.timers =
            (c.timers.erase (Timer.endR rid' n ls dur tot)) ++
              (endRound dict c.store rid' n ls dur tot).2.1 := by
          simp [step, hmem']
        cases hsr : c.store rid' with
        | none =>
          have heq : endRound dict c.store rid' n ls dur tot =
              (c.store, [], []) := by
            simp [endRound, hsr]
          by_cases hridEq : rid = rid'
          · subst hridEq
            refine ⟨roomInv_none (by rw [hst, heq]; exact hsr), ?_⟩
            rw [roundIdx_none hsr,
              roundIdx_none (c := (step dict c (Op.fireTimer
                (Timer.endR rid n ls dur tot) now letters)).1)
                (by rw [hst, heq]; exact hsr)]
          · apply preserve_untouched hInv
            · rw [hst, heq]
            · rw [htm, heq]
              rw [timersFor_append, timersFor_erase]
              rw [if_neg (by simpa [timerRid] using fun hh => hridEq hh.symm)]
              simp [timersFor]
        | some r =>
          by_cases hridEq : rid = rid'
          · subst hridEq
            have hmm : Timer.endR rid n ls dur tot ∈
                timersFor rid c.timers := by
              apply List.mem_filter.mpr
              exact ⟨by simpa using hmem, by simp [timerRid]⟩
            obtain ⟨hr0, hcurle, hlen, hok⟩ := (roomInv_some_iff hsr).mp hInv
            obtain ⟨hn, hnne, htot⟩ := hok _ hmm
            have hone : timersFor rid c.timers =
                [Timer.endR rid n ls dur tot] :=
              eq_singleton_of_length_le_one hlen hmm
            have herase : timersFor rid
                (c.timers.erase (Timer.endR rid n ls dur tot)) = [] := by
              rw [timersFor_erase, if_pos (by simp [timerRid]), hone]
              simp [List.erase_cons]
            by_cases hlt : n < tot
            · have heq := endRound_eq_lt dict c.store rid n ls dur tot r
                hsr hlt
              have hstore' : (step dict c (Op.fireTimer
                  (Timer.endR rid n ls dur tot) now letters)).1.store rid =
                  some { r with
                    players := (scoreRound dict ls ((r.roundStart n).getD 0)
                      dur r.players (r.submissions n)).1
                    currentRound := n + 1 } := by
                rw [hst, heq]
                dsimp only
                rw [setRoom_self]
              have htimers' : timersFor rid (step dict c (Op.fireTimer
                  (Timer.endR rid n ls dur tot) now letters)).1.timers =
                  [Timer.startR rid (n + 1)] := by
                rw [htm, heq]
                dsimp only
                rw [timersFor_append, herase, timersFor_singleton]
                simp [timerRid]
              constructor
              · apply (roomInv_some_iff hstore').mpr
                refine ⟨hr0, by dsimp only; omega, ?_, ?_⟩
                · rw [htimers']
                  simp
                · rw [htimers']
                  intro t' ht'
                  have ht'' : t' = Timer.startR rid (n + 1) := by
                    simpa using ht'
                  rw [ht'']
                  exact ⟨rfl, Nat.succ_ne_zero n, by dsimp only; omega⟩
              · rw [roundIdx_some hsr, roundIdx_some hstore']
                dsimp only
                omega
            · have heq := endRound_eq_ge dict c.store rid n ls dur tot r
                hsr hlt
              have hstore' : (step dict c (Op.fireTimer
                  (Timer.endR rid n ls dur tot) now letters)).1.store rid =
                  some { r with
                    players := (scoreRound dict ls ((r.roundStart n).getD 0)
                      dur r.players (r.submissions n)).1 } := by
                rw [hst, heq]
                dsimp only
                rw [setRoom_self]
              have htimers' : timersFor rid (step dict c (Op.fireTimer
                  (Timer.endR rid n ls dur tot) now letters)).1.timers =
                  [] := by
                rw [htm, heq]
                dsimp only
                rw [timersFor_append, herase]
                simp [timersFor]
              constructor
              · apply (roomInv_some_iff hstore').mpr
                refine ⟨hr0, hcurle, ?_, ?_⟩
                · rw [htimers']
                  simp
                · rw [htimers']
                  intro t' ht'
                  simp at ht'
              · rw [roundIdx_some hsr, roundIdx_some hstore']
          · -- a timer of another room fired
            cases hlt : decide (n < tot) with
            | true =>
              have heq := endRound_eq_lt dict c.store rid' n ls dur tot r
                hsr (of_decide_eq_true hlt)
              apply preserve_untouched hInv
              · rw [hst, heq]
                dsimp only
                rw [setRoom_other _ _ _ _ hridEq]
              · rw [htm, heq]
                dsimp only
                rw [timersFor_append, timersFor_erase]
                rw [if_neg
                  (by simpa [timerRid] using fun hh => hridEq hh.symm)]
                rw [timersFor_singleton]
                rw [if_neg
                  (by simpa [timerRid] using fun hh => hridEq hh.symm)]
                simp
            | false =>
              have heq := endRound_eq_ge dict c.store rid' n ls dur tot r
                hsr (of_decide_eq_false hlt)
              apply preserve_untouched hInv
              · rw [hst, heq]
                dsimp only
                rw [setRoom_other _ _ _ _ hridEq]
              · rw [htm, heq]
                dsimp only
                rw [timersFor_append, timersFor_erase]
                rw [if_neg
                  (by simpa [timerRid] using fun hh => hridEq hh.symm)]
                simp [timersFor]
      | startR rid' n =>
        have hst : (step dict c
            (Op.fireTimer (Timer.startR rid' n) now letters)).1.store =
            (startRound c.store rid' n now letters).1 := by
          simp [step, hmem']
        have htm : (step dict c
            (Op.fireTimer (Timer.startR rid' n) now letters)).1.timers =
            (c.timers.erase (Timer.startR rid' n)) ++
              (startRound c.store rid' n now letters).2.1 := by
          simp [step, hmem']
        cases hsr : c.store rid' with
        | none =>
          have heq : startRound c.store rid' n now letters =
              (c.store, [], []) := by
            simp [startRound, hsr]
          by_cases hridEq : rid = rid'
          · subst hridEq
            refine ⟨roomInv_none (by rw [hst, heq]; exact hsr), ?_⟩
            rw [roundIdx_none hsr,
              roundIdx_none (c := (step dict c (Op.fireTimer
                (Timer.startR rid n) now letters)).1)
                (by rw [hst, heq]; exact hsr)]
          · apply preserve_untouched hInv
            · rw [hst, heq]
            · rw [htm, heq]
              rw [timersFor_append, timersFor_erase]
              rw [if_neg (by simpa [timerRid] using fun hh => hridEq hh.symm)]
              simp [timersFor]
        | some r =>
          have heq := startRound_eq_some c.store rid' n now letters r hsr
          by_cases hridEq : rid = rid'
          · subst hridEq
            have hmm : Timer.startR rid n ∈ timersFor rid c.timers := by
              apply List.mem_filter.mpr
              exact ⟨by simpa using hmem, by simp [timerRid]⟩
            obtain ⟨hr0, hcurle, hlen, hok⟩ := (roomInv_some_iff hsr).mp hInv
            obtain ⟨hn, hnne, hle⟩ := hok _ hmm
            have hone : timersFor rid c.timers = [Timer.startR rid n] :=
              eq_singleton_of_length_le_one hlen hmm
            have herase : timersFor rid
                (c.timers.erase (Timer.startR rid n)) = [] := by
              rw [timersFor_erase, if_pos (by simp [timerRid]), hone]
              simp [List.erase_cons]
            have hstore' : (step dict c (Op.fireTimer
                (Timer.startR rid n) now letters)).1.store rid =
                some { r with
                  roundStart := fun m =>
                    if m = n then some now else r.roundStart m
                  roundLetters := fun m =>
                    if m = n then some letters else r.roundLetters m
                  submissions := fun m =>
                    if m = n then [] else r.submissions m } := by
              rw [hst, heq]
              dsimp only
              rw [setRoom_self]
            have htimers' : timersFor rid (step dict c (Op.fireTimer
                (Timer.startR rid n) now letters)).1.timers =
                [Timer.endR rid n letters (orDefault r.roundDuration 15)
                  (orDefault r.rounds 10)] := by
              rw [htm, heq]
              dsimp only
              rw [timersFor_append, herase, timersFor_singleton]
              simp [timerRid]
            constructor
            · apply (roomInv_some_iff hstore').mpr
              refine ⟨hr0, hcurle, ?_, ?_⟩
              · rw [htimers']
                simp
              · rw [htimers']
                intro t' ht'
                have ht'' : t' = Timer.endR rid n letters
                    (orDefault r.roundDuration 15) (orDefault r.rounds 10) := by
                  simpa using ht'
                rw [ht'']
                refine ⟨hn, hnne, ?_⟩
                unfold orDefault
                rw [if_neg hr0]
            · rw [roundIdx_some hsr, roundIdx_some hstore']
          · apply preserve_untouched hInv
            · rw [hst, heq]
              dsimp only
              rw [setRoom_other _ _ _ _ hridEq]
            · rw [htm, heq]
              dsimp only
              rw [timersFor_append, timersFor_erase]
              rw [if_neg (by simpa [timerRid] using fun hh => hridEq hh.symm)]
              rw [timersFor_singleton]
              rw [if_neg (by simpa [timerRid] using fun hh => hridEq hh.symm)]
              simp

end Server

/-! ## C6 — the round index over operation sequences (corrected) -/

/-- C6 counterexample: `startGame` has no lobby guard, so a second start
command mid-game resets the round index.  Starting a 2-round room, letting
round 1's end-of-round timer fire (round index 0 → 1 → 2), then sending
`startGame` again drops the index back to 1 — the index is not
monotonically non-decreasing over start/advance/score operations. -/
theorem claim_C6_counterexample :
    (∃ r₁ : Server.RoomState,
      (Server.runOps []
        { store := fun _ => some
            { hostCode := "H", rounds := 2, roundDuration := 15,
              currentRound := 0, gameStarted := none,
              roundStart := fun _ => none, roundLetters := fun _ => none,
              submissions := fun _ => [], players := [] },
          sessions := fun _ =>
            { currentRoom := some "R", username := ['h'] },
          timers := [] }
        [Server.Op.startGame "h" "H" 1000 ['a','b','c','d'],
         Server.Op.fireTimer
           (Server.Timer.endR "R" 1 ['a','b','c','d'] 15 2) 18000 []]
        ).store "R" = some r₁ ∧ r₁.currentRound = 2) ∧
    (∃ r₂ : Server.RoomState,
      (Server.runOps []
        { store := fun _ => some
            { hostCode := "H", rounds := 2, roundDuration := 15,
              currentRound := 0, gameStarted := none,
              roundStart := fun _ => none, roundLetters := fun _ => none,
              submissions := fun _ => [], players := [] },
          sessions := fun _ =>
            { currentRoom := some "R", username := ['h'] },
          timers := [] }
        [Server.Op.startGame "h" "H" 1000 ['a','b','c','d'],
         Server.Op.fireTimer
           (Server.Timer.endR "R" 1 ['a','b','c','d'] 15 2) 18000 [],
         Server.Op.startGame "h" "H" 20000 ['x','y','z','w']]
        ).store "R" = some r₂ ∧ r₂.currentRound = 1) :=
  ⟨⟨_, rfl, rfl⟩, ⟨_, rfl, rfl⟩⟩

/-- C6 amended: over every sequence of operations that contains no settings
update and in which every start command is processed while its room is
still in the lobby (round index 0), a room satisfying the reachable-room
invariant (positive configured round count, round index within bounds, at
most one pending timer and it matching the round in flight) keeps the
invariant, its round index never decreases, and the index never exceeds
the configured round count — in particular it never exceeds round count
plus one.  The unrestricted claim is false: `startGame` has no lobby guard
(see the counterexample). -/
theorem claim_C6_amended (dict : List (List Char)) (c : Server.Config)
    (ops : List Server.Op) (rid : String)
    (hInv : Server.RoomInv c rid)
    (hOK : Server.lobbyStartsOnly dict c ops = true) :
    Server.RoomInv (Server.runOps dict c ops) rid ∧
    Server.roundIdx c rid ≤ Server.roundIdx (Server.runOps dict c ops) rid ∧
    (∀ r, (Server.runOps dict c ops).store rid = some r →
      r.currentRound ≤ r.rounds + 1) := by
  induction ops generalizing c with
  | nil =>
    refine ⟨hInv, le_refl _, ?_⟩
    intro r hr
    have h := (Server.roomInv_some_iff hr).mp hInv
    omega
  | cons op rest ih =>
    simp only [Server.lobbyStartsOnly, Bool.and_eq_true] at hOK
    obtain ⟨h₁, h₂⟩ := hOK
    obtain ⟨hi, hle⟩ := Server.step_preserves dict c op rid hInv h₁
    obtain ⟨ha, hb, hc⟩ := ih (Server.step dict c op).1 hi h₂
    exact ⟨ha, le_trans hle hb, hc⟩

/-- Witness for the amended C6: the two-operation trace of the
counterexample (start, then the round-1 timer) keeps the invariant and
moves the index from 0 up to 2 ≤ rounds + 1. -/
theorem claim_C6_witness :
    (Server.RoomInv
      { store := fun _ => some
          { hostCode := "H", rounds := 2, roundDuration := 15,
            currentRound := 0, gameStarted := none,
            roundStart := fun _ => none, roundLetters := fun _ => none,
            submissions := fun _ => [], players := [] },
        sessions := fun _ => { currentRoom := some "R", username := ['h'] },
        timers := [] } "R") ∧
    (Server.lobbyStartsOnly []
      { store := fun _ => some
          { hostCode := "H", rounds := 2, roundDuration := 15,
            currentRound := 0, gameStarted := none,
            roundStart := fun _ => none, roundLetters := fun _ => none,
            submissions := fun _ => [], players := [] },
        sessions := fun _ => { currentRoom := some "R", username := ['h'] },
        timers := [] }
      [Server.Op.startGame "h" "H" 1000 ['a','b','c','d'],
       Server.Op.fireTimer
         (Server.Timer.endR "R" 1 ['a','b','c','d'] 15 2) 18000 []] =
      true) ∧
    (Server.RoomInv (Server.runOps []
      { store := fun _ => some
          { hostCode := "H", rounds := 2, roundDuration := 15,
            currentRound := 0, gameStarted := none,
            roundStart := fun _ => none, roundLetters := fun _ => none,
            submissions := fun _ => [], players := [] },
        sessions := fun _ => { currentRoom := some "R", username := ['h'] },
        timers := [] }
      [Server.Op.startGame "h" "H" 1000 ['a','b','c','d'],
       Server.Op.fireTimer
         (Server.Timer.endR "R" 1 ['a','b','c','d'] 15 2) 18000 []]) "R" ∧
     Server.roundIdx
      { store := fun _ => some
          { hostCode := "H", rounds := 2, roundDuration := 15,
            currentRound := 0, gameStarted := none,
            roundStart := fun _ => none, roundLetters := fun _ => none,
            submissions := fun _ => [], players := [] },
        sessions := fun _ => { currentRoom := some "R", username := ['h'] },
        timers := [] } "R" ≤
      Server.roundIdx (Server.runOps []
      { store := fun _ => some
          { hostCode := "H", rounds := 2, roundDuration := 15,
            currentRound := 0, gameStarted := none,
            roundStart := fun _ => none, roundLetters := fun _ => none,
            submissions := fun _ => [], players := [] },
        sessions := fun _ => { currentRoom := some "R", username := ['h'] },
        timers := [] }
      [Server.Op.startGame "h" "H" 1000 ['a','b','c','d'],
       Server.Op.fireTimer
         (Server.Timer.endR "R" 1 ['a','b','c','d'] 15 2) 18000 []]) "R" ∧
     (∀ r, (Server.runOps []
      { store := fun _ => some
          { hostCode := "H", rounds := 2, roundDuration := 15,
            currentRound := 0, gameStarted := none,
            roundStart := fun _ => none, roundLetters := fun _ => none,
            submissions := fun _ => [], players := [] },
        sessions := fun _ => { currentRoom := some "R", username := ['h'] },
        timers := [] }
      [Server.Op.startGame "h" "H" 1000 ['a','b','c','d'],
       Server.Op.fireTimer
         (Server.Timer.endR "R" 1 ['a','b','c','d'] 15 2) 18000 []]).store
        "R" = some r → r.currentRound ≤ r.rounds + 1)) :=
  ⟨by decide, by decide, claim_C6_amended _ _ _ "R" (by decide) (by decide)⟩

/-! ## C8 — player totals across join/disconnect/scoring (corrected) -/

/-- C8 counterexample: `joinRoom` unconditionally rewrites the player's
hash entry with `totalPoints = 0`, so a join by a socket that already holds
7 points resets the total (7 → 0); and `disconnect` deletes the player's
hash entry outright, erasing the accumulated total.  Both contradict "the
cumulative total points value is monotonically non-decreasing across every
operation … no join operation resets an existing player's total to zero". -/
theorem claim_C8_counterexample :
    (Server.lookup
      [("p1", ({ username := ['a','l'], totalPoints := 7, lastWord := ['c','a','t'], lastRoundPoints := 7, joinedAt := 0 } :
        Server.PlayerRec))] "p1" =
      some { username := ['a','l'], totalPoints := 7, lastWord := ['c','a','t'], lastRoundPoints := 7, joinedAt := 0 }) ∧
    (∃ r' : Server.RoomState,
      (Server.handleJoinRoom
        (fun _ => some
          { hostCode := "H", rounds := 2, roundDuration := 15,
            currentRound := 1, gameStarted := some 0,
            roundStart := fun _ => some 0, roundLetters := fun _ => none,
            submissions := fun _ => [],
            players := [("p1",
              { username := ['a','l'], totalPoints := 7, lastWord := ['c','a','t'], lastRoundPoints := 7, joinedAt := 0 })] })
        Server.freshSession "p1" "R" ['a','l'] 99).1 "R" = some r' ∧
      Server.lookup r'.players "p1" =
        some { username := ['a','l'], totalPoints := 0, lastWord := [], lastRoundPoints := 0, joinedAt := 99 } ∧
      ¬ ((7 : ℚ) ≤ 0)) ∧
    (∃ r'' : Server.RoomState,
      (Server.handleDisconnect
        (fun _ => some
          { hostCode := "H", rounds := 2, roundDuration := 15,
            currentRound := 1, gameStarted := some 0,
            roundStart := fun _ => some 0, roundLetters := fun _ => none,
            submissions := fun _ => [],
            players := [("p1",
              { username := ['a','l'], totalPoints := 7, lastWord := ['c','a','t'], lastRoundPoints := 7, joinedAt := 0 })] })
        { currentRoom := some "R", username := ['a','l'] } "p1").1 "R" =
        some r'' ∧
      Server.lookup r''.players "p1" = none) :=
  ⟨rfl, ⟨_, rfl, rfl, by norm_num⟩, ⟨_, rfl, rfl⟩⟩

/-- C8 amended: what the code actually guarantees.  (a) The scoring pass of
`endRound` never decreases a present player's cumulative total (every round
score is nonnegative and is added to the stored total).  (b) `disconnect`
touches only the players hash: the round's submission set, the round index
and the settings are untouched, so (c) the duplicate statistics — computed
from submissions alone — still count every recorded submission, and (d)
every recorded submission (from a disconnected player or not) still gets a
result row in the scoring pass.  A rejoin, however, rewrites the record
with zero points, and a disconnect deletes it (see the counterexample). -/
theorem claim_C8_amended :
    (∀ (dict : List (List Char)) (letters : List Char) (startTime : ℤ)
        (dur : ℕ) (players : List (String × Server.PlayerRec))
        (subs : List (String × Server.SubData)) (sock : String)
        (rec : Server.PlayerRec),
      Server.lookup players sock = some rec →
      ∃ rec', Server.lookup
          (Server.scoreRound dict letters startTime dur players subs).1
          sock = some rec' ∧
        rec.totalPoints ≤ rec'.totalPoints) ∧
    (∀ (store : Server.Store) (sess : Server.Session) (sock rid : String)
        (r : Server.RoomState),
      sess.currentRoom = some rid → store rid = some r →
      ∃ r', (Server.handleDisconnect store sess sock).1 rid = some r' ∧
        r'.submissions = r.submissions ∧
        r'.currentRound = r.currentRound ∧ r'.rounds = r.rounds) ∧
    (∀ (subs : List (String × Server.SubData)) (w : List Char),
      (Server.computeStats subs).counts w =
        (Server.wordGroup subs w).length) ∧
    (∀ (dict : List (List Char)) (letters : List Char) (startTime : ℤ)
        (dur : ℕ) (players : List (String × Server.PlayerRec))
        (subs : List (String × Server.SubData))
        (e : String × Server.SubData),
      e ∈ subs →
      ∃ res ∈ (Server.scoreRound dict letters startTime dur players subs).2,
        res.socketId = e.1) := by
  refine ⟨?_, ?_, ?_, ?_⟩
  · intro dict letters startTime dur players subs sock rec hrec
    have key : ∀ (l : List (String × Server.SubData))
        (ps : List (String × Server.PlayerRec)),
        (∃ rec', Server.lookup ps sock = some rec' ∧
          rec.totalPoints ≤ rec'.totalPoints) →
        ∃ rec', Server.lookup
          (l.foldl (fun ps e => Server.upsert ps e.1
            (Server.scoreOne dict letters startTime dur
              (Server.computeStats subs) players e).1) ps) sock =
            some rec' ∧
          rec.totalPoints ≤ rec'.totalPoints := by
      intro l
      induction l with
      | nil => exact fun ps h => h
      | cons e rest ih =>
        intro ps h
        apply ih
        by_cases hk : sock = e.1
        · refine ⟨(Server.scoreOne dict letters startTime dur
            (Server.computeStats subs) players e).1, ?_, ?_⟩
          · rw [Server.lookup_upsert, if_pos hk]
          · have hval : (Server.scoreOne dict letters startTime dur
                (Server.computeStats subs) players e).1.totalPoints =
                ((Server.lookup players e.1).getD
                  Server.unknownPlayer).totalPoints +
                (VariantA.calculateScore
                  { word := e.2.word, letters := letters,
                    dictionary := dict,
                    timeElapsed :=
                      ((e.2.submissionTime - startTime : ℤ) : ℚ) / 1000,
                    totalTime := (dur : ℚ),
                    isDuplicate :=
                      Server.isDuplicate (Server.computeStats subs) e,
                    isFirstDuplicate :=
                      Server.isFirstDuplicate (Server.computeStats subs) e
                  }).roundPoints := rfl
            rw [hval, ← hk, hrec]
            have hrp := Server.calculateScore_roundPoints_nonneg
              { word := e.2.word, letters := letters, dictionary := dict,
                timeElapsed :=
                  ((e.2.submissionTime - startTime : ℤ) : ℚ) / 1000,
                totalTime := (dur : ℚ),
                isDuplicate :=
                  Server.isDuplicate (Server.computeStats subs) e,
                isFirstDuplicate :=
                  Server.isFirstDuplicate (Server.computeStats subs) e }
              (by positivity)
            simp only [Option.getD_some]
            linarith
        · obtain ⟨rec', hl, hle⟩ := h
          refine ⟨rec', ?_, hle⟩
          rw [Server.lookup_upsert, if_neg hk]
          exact hl
    exact key subs players ⟨rec, hrec, le_refl _⟩
  · intro store sess sock rid r hroom hstore
    refine ⟨{ r with
        players := r.players.filter (fun e => !(e.1 == sock)) },
      ?_, rfl, rfl, rfl⟩
    simp [Server.handleDisconnect, hroom, hstore, Server.setRoom]
  · exact fun subs w => (Server.statsInv_computeStats subs w).1
  · intro dict letters startTime dur players subs e he
    exact ⟨_, List.mem_map_of_mem _ he, rfl⟩

/-- Witness for the amended C8: scoring a one-submission round adds the
round's points to the stored total (7 → 17.8), never below 7; disconnect
leaves the submission hash intact. -/
theorem claim_C8_witness :
    (Server.lookup
      [("p1", ({ username := ['a','l'], totalPoints := 7, lastWord := [], lastRoundPoints := 0, joinedAt := 0 } :
        Server.PlayerRec))] "p1" =
      some { username := ['a','l'], totalPoints := 7, lastWord := [], lastRoundPoints := 0, joinedAt := 0 }) ∧
    (∃ rec', Server.lookup
        (Server.scoreRound [['c','a','t']] ['c'] 0 15
          [("p1", { username := ['a','l'], totalPoints := 7, lastWord := [], lastRoundPoints := 0, joinedAt := 0 })]
          [("p1", { word := ['c','a','t'], submissionTime := 1000, username := ['a','l'] })]).1 "p1" = some rec' ∧
      (7 : ℚ) ≤ rec'.totalPoints) :=
  ⟨rfl, claim_C8_amended.1 [['c','a','t']] ['c'] 0 15
    [("p1", { username := ['a','l'], totalPoints := 7, lastWord := [], lastRoundPoints := 0, joinedAt := 0 })]
    [("p1", { word := ['c','a','t'], submissionTime := 1000, username := ['a','l'] })]
    "p1"
    { username := ['a','l'], totalPoints := 7, lastWord := [], lastRoundPoints := 0, joinedAt := 0 }
    rfl⟩

/-! ## C5 — a second submission is rejected with AlreadySubmitted -/

/-- C5: under the single-submission rule of `server.js` (the shared-letters
variant), a `submitWord` command from a socket that already has a recorded
submission for the current round is rejected with `ALREADY_SUBMITTED`, and
the store — hence the recorded word, submission timestamp and every
player's points — is returned unchanged. -/
theorem claim_C5 (store : Server.Store) (sess : Server.Session)
    (sock : String) (word : List Char) (now : ℤ) (rid : String)
    (r : Server.RoomState)
    (hroom : sess.currentRoom = some rid)
    (huser : sess.username.isEmpty = false)
    (hstore : store rid = some r)
    (hstart : (r.roundStart r.currentRound).isSome = true)
    (hdup : (r.submissions r.currentRound).any (fun e => e.1 == sock) = true) :
    Server.handleSubmitWord store sess sock word now =
      (store, [Server.Ev.error Server.ErrCode.ALREADY_SUBMITTED]) := by
  obtain ⟨t, ht⟩ := Option.isSome_iff_exists.mp hstart
  simp [Server.handleSubmitWord, hroom, hstore, huser, ht, hdup]

/-- Witness for C5: socket `p1` already has a recorded submission for
round 1 and submits again. -/
theorem claim_C5_witness :
    (({ currentRoom := some "R", username := ['a','l'] } :
        Server.Session).currentRoom = some "R") ∧
    (({ currentRoom := some "R", username := ['a','l'] } :
        Server.Session).username.isEmpty = false) ∧
    ((fun _ => some
      { hostCode := "H", rounds := 10, roundDuration := 15, currentRound := 1,
        gameStarted := some 0, roundStart := fun _ => some 100,
        roundLetters := fun _ => none,
        submissions := fun _ => [("p1",
          { word := ['c','a','t'], submissionTime := 500,
            username := ['a','l'] })],
        players := [] } : Server.Store) "R" = some
      { hostCode := "H", rounds := 10, roundDuration := 15, currentRound := 1,
        gameStarted := some 0, roundStart := fun _ => some 100,
        roundLetters := fun _ => none,
        submissions := fun _ => [("p1",
          { word := ['c','a','t'], submissionTime := 500,
            username := ['a','l'] })],
        players := [] }) ∧
    Server.handleSubmitWord
      (fun _ => some
        { hostCode := "H", rounds := 10, roundDuration := 15,
          currentRound := 1, gameStarted := some 0,
          roundStart := fun _ => some 100, roundLetters := fun _ => none,
          submissions := fun _ => [("p1",
            { word := ['c','a','t'], submissionTime := 500,
              username := ['a','l'] })],
          players := [] })
      { currentRoom := some "R", username := ['a','l'] } "p1"
      ['d','o','g'] 900 =
      ((fun _ => some
        { hostCode := "H", rounds := 10, roundDuration := 15,
          currentRound := 1, gameStarted := some 0,
          roundStart := fun _ => some 100, roundLetters := fun _ => none,
          submissions := fun _ => [("p1",
            { word := ['c','a','t'], submissionTime := 500,
              username := ['a','l'] })],
          players := [] }),
       [Server.Ev.error Server.ErrCode.ALREADY_SUBMITTED]) :=
  ⟨rfl, rfl, rfl,
    claim_C5 _ _ _ _ _ "R" _ rfl rfl rfl rfl (by decide)⟩

/-! ## C7 — start-command authorization -/

/-- C7: a start command presenting a credential that does not match the
room's stored host token is rejected with `UNAUTHORIZED` and causes no
transition (the store is returned unchanged and no timer is scheduled).
When the addressed room was never created, the `NOT_FOUND` error is what
the client sees instead: the join that must precede any room-scoped command
surfaces `ROOM_NOT_FOUND` and leaves the session without a room, after
which the start command emits nothing and changes nothing — in particular,
no `UNAUTHORIZED` error is produced anywhere in the sequence. -/
theorem claim_C7 :
    (∀ (store : Server.Store) (sess : Server.Session) (code : String)
        (now : ℤ) (letters : List Char) (rid : String)
        (r : Server.RoomState),
      sess.currentRoom = some rid → store rid = some r →
      r.hostCode ≠ code →
      Server.handleStartGame store sess code now letters =
        (store, [], [Server.Ev.error Server.ErrCode.UNAUTHORIZED])) ∧
    (∀ (store : Server.Store) (sess : Server.Session)
        (sock rid : String) (rawUsername : List Char) (now : ℤ)
        (code : String) (now2 : ℤ) (letters : List Char),
      store rid = none → sess.currentRoom = none →
      Server.sanitizeUsername rawUsername ≠ [] →
      (Server.handleJoinRoom store sess sock rid rawUsername now).2.2 =
          [Server.Ev.error Server.ErrCode.ROOM_NOT_FOUND] ∧
      (Server.handleJoinRoom store sess sock rid rawUsername now).1 = store ∧
      Server.handleStartGame
        (Server.handleJoinRoom store sess sock rid rawUsername now).1
        (Server.handleJoinRoom store sess sock rid rawUsername now).2.1
        code now2 letters =
        ((Server.handleJoinRoom store sess sock rid rawUsername now).1,
         [], [])) := by
  constructor
  · intro store sess code now letters rid r hroom hstore hne
    simp [Server.handleStartGame, hroom, hstore, hne]
  · intro store sess sock rid rawUsername now code now2 letters
      hmiss hfresh huser
    have hjoin : Server.handleJoinRoom store sess sock rid rawUsername now =
        (store, { sess with username := Server.sanitizeUsername rawUsername },
         [Server.Ev.error Server.ErrCode.ROOM_NOT_FOUND]) := by
      simp [Server.handleJoinRoom, huser, hmiss]
    rw [hjoin]
    refine ⟨rfl, rfl, ?_⟩
    simp [Server.handleStartGame, hfresh]

/-- Witness for C7: a wrong host code against an existing room, and a
join-then-start against a missing room. -/
theorem claim_C7_witness :
    (({ currentRoom := some "R", username := ['h'] } :
        Server.Session).currentRoom = some "R" ∧
     ((fun s => if s = "R" then some
        { hostCode := "H", rounds := 10, roundDuration := 15,
          currentRound := 0, gameStarted := none,
          roundStart := fun _ => none, roundLetters := fun _ => none,
          submissions := fun _ => [], players := [] } else none :
        Server.Store) "R" = some
        { hostCode := "H", rounds := 10, roundDuration := 15,
          currentRound := 0, gameStarted := none,
          roundStart := fun _ => none, roundLetters := fun _ => none,
          submissions := fun _ => [], players := [] }) ∧
     ("H" ≠ "X") ∧
     Server.handleStartGame
       (fun s => if s = "R" then some
         { hostCode := "H", rounds := 10, roundDuration := 15,
           currentRound := 0, gameStarted := none,
           roundStart := fun _ => none, roundLetters := fun _ => none,
           submissions := fun _ => [], players := [] } else none)
       { currentRoom := some "R", username := ['h'] } "X" 1000 ['a'] =
       ((fun s => if s = "R" then some
         { hostCode := "H", rounds := 10, roundDuration := 15,
           currentRound := 0, gameStarted := none,
           roundStart := fun _ => none, roundLetters := fun _ => none,
           submissions := fun _ => [], players := [] } else none),
        [], [Server.Ev.error Server.ErrCode.UNAUTHORIZED])) ∧
    ((Server.handleJoinRoom (fun _ => none) Server.freshSession
        "p1" "NOPE" ['a','l'] 5).2.2 =
        [Server.Ev.error Server.ErrCode.ROOM_NOT_FOUND] ∧
     (Server.handleJoinRoom (fun _ => none) Server.freshSession
        "p1" "NOPE" ['a','l'] 5).1 = (fun _ => none) ∧
     Server.handleStartGame
       (Server.handleJoinRoom (fun _ => none) Server.freshSession
          "p1" "NOPE" ['a','l'] 5).1
       (Server.handleJoinRoom (fun _ => none) Server.freshSession
          "p1" "NOPE" ['a','l'] 5).2.1
       "X" 9 ['a'] =
       ((Server.handleJoinRoom (fun _ => none) Server.freshSession
          "p1" "NOPE" ['a','l'] 5).1, [], [])) :=
  ⟨⟨rfl, rfl, by decide,
     claim_C7.1 _ _ _ _ _ "R" _ rfl rfl (by decide)⟩,
   claim_C7.2 _ _ "p1" "NOPE" ['a','l'] 5 "X" 9 ['a'] rfl rfl (by decide)⟩

/-! ## C9 — host settings have no lobby guard (corrected) -/

/-- C9 counterexample: a room already at round 3 accepts a valid-credential
settings update — the stored round count changes from 10 to 5 and the
duration from 15 to 20, contradicting "a settings command arriving when the
room is past LOBBY leaves the stored round count and round duration
unchanged". -/
theorem claim_C9_counterexample :
    (({ hostCode := "H", rounds := 10, roundDuration := 15,
        currentRound := 3, gameStarted := some 0,
        roundStart := fun _ => none, roundLetters := fun _ => none,
        submissions := fun _ => [], players := [] } :
      Server.RoomState).currentRound = 3) ∧
    (∃ r' : Server.RoomState,
      (Server.handleHostSettings
        (fun _ => some
          { hostCode := "H", rounds := 10, roundDuration := 15,
            currentRound := 3, gameStarted := some 0,
            roundStart := fun _ => none, roundLetters := fun _ => none,
            submissions := fun _ => [], players := [] })
        { currentRoom := some "R", username := ['h'] } 5 20 "H").1 "R" =
        some r' ∧
      r'.rounds = 5 ∧ r'.roundDuration = 20) :=
  ⟨rfl, ⟨_, rfl, rfl, rfl⟩⟩

/-- C9 amended: `hostSettings` checks only the host credential — there is
no LOBBY guard.  With a matching credential the stored round count and
duration are overwritten in any state (in particular past LOBBY); with a
mismatched credential the command is rejected with `UNAUTHORIZED` and the
store is unchanged. -/
theorem claim_C9_amended (store : Server.Store) (sess : Server.Session)
    (rounds roundDuration : ℕ) (code rid : String) (r : Server.RoomState)
    (hroom : sess.currentRoom = some rid)
    (hstore : store rid = some r) :
    (r.hostCode = code →
      Server.handleHostSettings store sess rounds roundDuration code =
        (Server.setRoom store rid
          { r with rounds := rounds, roundDuration := roundDuration },
         [Server.Ev.settingsUpdated rounds roundDuration])) ∧
    (r.hostCode ≠ code →
      Server.handleHostSettings store sess rounds roundDuration code =
        (store, [Server.Ev.error Server.ErrCode.UNAUTHORIZED])) := by
  constructor
  · intro heq
    simp [Server.handleHostSettings, hroom, hstore, heq]
  · intro hne
    simp [Server.handleHostSettings, hroom, hstore, hne]

/-- Witness for the amended C9 at a mid-game room. -/
theorem claim_C9_witness :
    (({ currentRoom := some "R", username := ['h'] } :
        Server.Session).currentRoom = some "R") ∧
    ((fun _ => some
        { hostCode := "H", rounds := 10, roundDuration := 15,
          currentRound := 3, gameStarted := some 0,
          roundStart := fun _ => none, roundLetters := fun _ => none,
          submissions := fun _ => [], players := [] } : Server.Store) "R" =
      some
        { hostCode := "H", rounds := 10, roundDuration := 15,
          currentRound := 3, gameStarted := some 0,
          roundStart := fun _ => none, roundLetters := fun _ => none,
          submissions := fun _ => [], players := [] }) ∧
    (("H" : String) = "H" →
      Server.handleHostSettings
        (fun _ => some
          { hostCode := "H", rounds := 10, roundDuration := 15,
            currentRound := 3, gameStarted := some 0,
            roundStart := fun _ => none, roundLetters := fun _ => none,
            submissions := fun _ => [], players := [] })
        { currentRoom := some "R", username := ['h'] } 5 20 "H" =
        (Server.setRoom
          (fun _ => some
            { hostCode := "H", rounds := 10, roundDuration := 15,
              currentRound := 3, gameStarted := some 0,
              roundStart := fun _ => none, roundLetters := fun _ => none,
              submissions := fun _ => [], players := [] }) "R"
          { hostCode := "H", rounds := 5, roundDuration := 20,
            currentRound := 3, gameStarted := some 0,
            roundStart := fun _ => none, roundLetters := fun _ => none,
            submissions := fun _ => [], players := [] },
         [Server.Ev.settingsUpdated 5 20])) :=
  ⟨rfl, rfl, fun _ =>
    (claim_C9_amended _ _ 5 20 "H" "R" _ rfl rfl).1 rfl⟩

/-! ## C10 — the variant-A time multiplier is clamped to [1, 1.1] -/

/-- C10: in variant A scoring, for every submission with `timeElapsed ≥ 0`
and `totalTime > 0`, the computed time multiplier lies in `[1, 1.1]`; a
submission at or past the nominal duration gets multiplier exactly 1 (the
remaining time is clamped at 0); and the rounded `roundPoints` never drop
below `basePoints`. -/
theorem claim_C10 (p : VariantA.ScoreParams)
    (h0 : 0 ≤ p.timeElapsed) (h1 : 0 < p.totalTime) :
    (1 ≤ (VariantA.calculateScore p).timeMultiplier ∧
      (VariantA.calculateScore p).timeMultiplier ≤ 11/10) ∧
    (p.totalTime ≤ p.timeElapsed →
      (VariantA.calculateScore p).timeMultiplier = 1) ∧
    (VariantA.calculateScore p).basePoints ≤
      (VariantA.calculateScore p).roundPoints := by
  rcases Bool.eq_false_or_eq_true
      (validateWord (normalize p.word) p.dictionary) with hv | hv
  case inr =>
    rw [VariantA.calculateScore_of_invalid hv]
    norm_num [VariantA.emptyBreakdown]
  rcases Bool.eq_false_or_eq_true
      (VariantA.containsAllLetters (normalize p.word) p.letters) with hc | hc
  case inr =>
    rw [VariantA.calculateScore_of_missing hv hc]
    norm_num [VariantA.emptyBreakdown]
  rw [VariantA.calculateScore_of_valid hv hc]
  set L : ℚ := max 0 ((((normalize p.word).length : ℚ)) - 5) with hL
  set S : ℚ := if p.timeElapsed ≤ p.totalTime / 2 then (2 : ℚ) else 0 with hS
  set O : ℚ := if p.isFirstDuplicate then (5 : ℚ) else 0 with hO
  set rem : ℚ := max 0 (p.totalTime - p.timeElapsed) with hrem
  have hrem0 : 0 ≤ rem := le_max_left _ _
  have hremT : rem ≤ p.totalTime := max_le h1.le (by linarith)
  have hdiv0 : 0 ≤ rem / p.totalTime := div_nonneg hrem0 h1.le
  have hdiv1 : rem / p.totalTime ≤ 1 := (div_le_one h1).mpr hremT
  refine ⟨⟨by nlinarith, by nlinarith⟩, ?_, ?_⟩
  · intro hlate
    have hz : rem = 0 := by
      rw [hrem]
      exact max_eq_left (by linarith)
    rw [hz]
    norm_num
  · obtain ⟨k, hk, hk0⟩ :
        ∃ k : ℤ, 5 + 3 + L + S + O = (k : ℚ) ∧ 0 ≤ (k : ℚ) := by
      refine ⟨5 + 3 + max 0 (((normalize p.word).length : ℤ) - 5) +
        (if p.timeElapsed ≤ p.totalTime / 2 then (2 : ℤ) else 0) +
        (if p.isFirstDuplicate then (5 : ℤ) else 0), ?_, ?_⟩
      · rw [hL, hS, hO]
        push_cast [Int.cast_max]
        split_ifs <;> norm_num
      · push_cast [Int.cast_max]
        split_ifs <;> positivity
    rw [hk]
    apply roundTo2_int_le
    calc (k : ℚ) = (k : ℚ) * 1 := by ring
      _ ≤ (k : ℚ) * (1 + rem / p.totalTime * (1 / 10)) := by nlinarith

/-! ## C2 — variant A: a word missing a required letter scores exactly 0 -/

/-- C2: in variant A, every submission that does not contain all required
letters has `roundPoints = 0`, whether or not it passes the dictionary
check; the containment test is a per-letter membership test on the
lower-cased word, so a repeated letter in the required set imposes no
repetition requirement; and `endRound` still reports one result row (with
its breakdown) per recorded submission. -/
theorem claim_C2 :
    (∀ p : VariantA.ScoreParams,
      VariantA.containsAllLetters (normalize p.word) p.letters = false →
      (VariantA.calculateScore p).roundPoints = 0) ∧
    (∀ word letters : List Char,
      VariantA.containsAllLetters word letters = true ↔
        ∀ c ∈ letters, (word.map Char.toLower).contains c.toLower = true) ∧
    (∀ (word : List Char) (c : Char) (letters : List Char),
      VariantA.containsAllLetters word (c :: c :: letters) =
        VariantA.containsAllLetters word (c :: letters)) ∧
    (∀ dict letters startTime dur players subs,
      (Server.scoreRound dict letters startTime dur players subs).2.length =
        subs.length ∧
      ∀ e ∈ subs,
        ∃ res ∈ (Server.scoreRound dict letters startTime dur players subs).2,
          res.socketId = e.1 ∧ res.submittedWord = e.2.word) := by
  refine ⟨?_, ?_, ?_, ?_⟩
  · intro p hc
    rcases Bool.eq_false_or_eq_true
        (validateWord (normalize p.word) p.dictionary) with hv | hv
    · rw [VariantA.calculateScore_of_missing hv hc]
      rfl
    · rw [VariantA.calculateScore_of_invalid hv]
      rfl
  · intro word letters
    simp [VariantA.containsAllLetters, List.all_eq_true, List.forall_mem_map]
  · intro word c letters
    cases h : (word.map Char.toLower).contains c.toLower <;>
      simp [VariantA.containsAllLetters, h]
  · intro dict letters startTime dur players subs
    constructor
    · exact List.length_map _ _
    · intro e he
      exact ⟨_, List.mem_map_of_mem _ he, rfl, rfl⟩

/-- Witness for C2: the dictionary-valid word `cat` misses the required
letter `x` and scores 0. -/
theorem claim_C2_witness :
    (VariantA.containsAllLetters
        (normalize ['c','a','t']) ['x','a'] = false) ∧
    (VariantA.calculateScore
      { word := ['c','a','t'], letters := ['x','a'],
        dictionary := [['c','a','t']], timeElapsed := 1, totalTime := 15,
        isDuplicate := false, isFirstDuplicate := false }).roundPoints = 0 :=
  ⟨by decide, claim_C2.1 _ (by decide)⟩

/-- Witness for C10 at a concrete submission (`timeElapsed = 5`,
`totalTime = 15`). -/
theorem claim_C10_witness :
    (0 : ℚ) ≤ 5 ∧ (0 : ℚ) < 15 ∧
    ((1 ≤ (VariantA.calculateScore
        { word := ['c','a','t'], letters := ['c'], dictionary := [],
          timeElapsed := 5, totalTime := 15,
          isDuplicate := false, isFirstDuplicate := false }).timeMultiplier ∧
      (VariantA.calculateScore
        { word := ['c','a','t'], letters := ['c'], dictionary := [],
          timeElapsed := 5, totalTime := 15,
          isDuplicate := false, isFirstDuplicate := false }).timeMultiplier ≤
        11/10) ∧
    ((15 : ℚ) ≤ 5 →
      (VariantA.calculateScore
        { word := ['c','a','t'], letters := ['c'], dictionary := [],
          timeElapsed := 5, totalTime := 15,
          isDuplicate := false, isFirstDuplicate := false }).timeMultiplier = 1) ∧
    (VariantA.calculateScore
        { word := ['c','a','t'], letters := ['c'], dictionary := [],
          timeElapsed := 5, totalTime := 15,
          isDuplicate := false, isFirstDuplicate := false }).basePoints ≤
      (VariantA.calculateScore
        { word := ['c','a','t'], letters := ['c'], dictionary := [],
          timeElapsed := 5, totalTime := 15,
          isDuplicate := false, isFirstDuplicate := false }).roundPoints) :=
  ⟨by norm_num, by norm_num,
    claim_C10 _ (by norm_num) (by norm_num)⟩

end WordMatrix
